import Mathlib

/-!
# Verification of the panterfish search core (src/searcher.py)

A shallow embedding of the move-search core: the fail-soft null-window
evaluator `Searcher.bound` and the MTD-bi iterative-deepening driver
`Searcher.search`.  The Position abstraction, together with the sentinel
constants MATE_LOWER / MATE_UPPER, lives outside src/ (position.py and
piece_square_tables.py are external collaborators per the spec), so it is
modelled as an abstract `Game` structure whose fields follow the spec's
Position capability set.  Positions and moves are represented by natural
numbers; concrete games instantiate the fields with pattern-matching
functions.

Recursion in `bound` is embedded with explicit fuel: a call returns `none`
when the fuel runs out, and `some (score, state)` when the Python code
would return `score` leaving the searcher's mutable state (`tp_score`,
`tp_move`, `history`, `nodes`) as `state`.  The lazy candidate generator
of the source is embedded as a sequence of phase functions threaded in the
exact order the consumer loop pulls candidates, with a `done` flag so that
code after a fail-high break is never executed, matching generator
semantics.
-/

namespace Panterfish

/-- Constant QS from searcher.py line 10 (quiescence value threshold). -/
def QS : Int := 35

/-- Constant EVAL_ROUGHNESS from searcher.py line 11 (driver tolerance). -/
def EVAL_ROUGHNESS : Int := 15

/-- Modelled from the spec: the opaque Position capability set (spec section 3)
together with the externally supplied sentinel constants MATE_LOWER and
MATE_UPPER.  position.py and piece_square_tables.py are not part of src/, so
score, move application, null-move rotation, move generation, move valuation
and the major-piece test (any of RBNQ on the board) are abstract fields.
Positions and moves are numbered by naturals. -/
structure Game where
  score : Nat → Int
  value : Nat → Nat → Int
  moveApply : Nat → Nat → Nat
  rotateNull : Nat → Nat
  genMoves : Nat → List Nat
  hasMajor : Nat → Bool
  MATE_LOWER : Int
  MATE_UPPER : Int

/-- Entry = namedtuple("Entry", "lower upper"), searcher.py line 20. -/
structure Entry where
  lower : Int
  upper : Int
deriving DecidableEq, Repr

/-- Key of the score transposition table: (pos, depth, can_null). -/
abbrev SKey := Nat × Nat × Bool

/-- The Searcher's mutable state: tp_score, tp_move, history, nodes. -/
structure SState where
  tpScore : List (SKey × Entry)
  tpMove : List (Nat × Nat)
  histSet : List Nat
  nodes : Nat
deriving DecidableEq, Repr

/-- The state of a freshly constructed Searcher (searcher.py lines 24-28). -/
def initState : SState := ⟨[], [], [], 0⟩

/-- Default entry of the tp_score defaultdict: (-MATE_UPPER, MATE_UPPER). -/
def entryDefault (G : Game) : Entry := ⟨-G.MATE_UPPER, G.MATE_UPPER⟩

/-- First-match association lookup in the score table. -/
def tpScoreFind : List (SKey × Entry) → SKey → Option Entry
  | [], _ => none
  | (k', e) :: t, k => if k' = k then some e else tpScoreFind t k

/-- Store an entry for a key (dict assignment; newest binding shadows). -/
def tpScoreSet (st : SState) (k : SKey) (e : Entry) : SState :=
  { st with tpScore := (k, e) :: st.tpScore }

/-- Reading the tp_score defaultdict: a miss inserts the default entry,
exactly like Python's defaultdict __getitem__ (searcher.py line 52). -/
def tpScoreGet (G : Game) (st : SState) (k : SKey) : Entry × SState :=
  match tpScoreFind st.tpScore k with
  | some e => (e, st)
  | none => (entryDefault G, tpScoreSet st k (entryDefault G))

/-- First-match association lookup in the move cache. -/
def tpMoveFind : List (Nat × Nat) → Nat → Option Nat
  | [], _ => none
  | (p, m) :: t, q => if p = q then some m else tpMoveFind t q

/-- tp_move[pos] = m (searcher.py line 122). -/
def tpMoveSet (st : SState) (p m : Nat) : SState :=
  { st with tpMove := (p, m) :: st.tpMove }

/-- The entry the table currently answers for a key (default when absent). -/
def lookupEntry (G : Game) (st : SState) (k : SKey) : Entry :=
  match tpScoreFind st.tpScore k with
  | some e => e
  | none => entryDefault G

/-- Insert a (value, move) pair into a list sorted in descending
lexicographic order, as Python's sorted(..., reverse=True) produces
for the pairs (pos.value(m), m) (searcher.py line 97). -/
def insertDesc (a : Int × Nat) : List (Int × Nat) → List (Int × Nat)
  | [] => [a]
  | b :: t => if b.1 < a.1 ∨ (a.1 = b.1 ∧ b.2 ≤ a.2) then a :: b :: t else b :: insertDesc a t

/-- Sort (value, move) pairs in descending lexicographic order. -/
def sortDesc (l : List (Int × Nat)) : List (Int × Nat) := l.foldr insertDesc []

/-- sorted(((pos.value(m), m) for m in pos.gen_moves()), reverse=True). -/
def movesSorted (G : Game) (pos : Nat) : List (Int × Nat) :=
  sortDesc ((G.genMoves pos).map (fun m => (G.value pos m, m)))

/-- One step of the consumer loop (searcher.py lines 117-123): fold a
candidate score into best; on best >= gamma record the move (when it is a
real move, not the null/stand-pat placeholder) and signal the break. -/
def stepCand (gamma : Int) (pos : Nat) (mv : Option Nat) (s : Int)
    (best : Int) (st : SState) : Int × Bool × SState :=
  if gamma ≤ max best s then
    (max best s, true,
      match mv with
      | some m => tpMoveSet st pos m
      | none => st)
  else (max best s, false, st)

/-- Null-move candidate (searcher.py lines 67-68): if depth > 2, can_null
and a major piece remains, evaluate -bound(pos.rotate(nullmove=True),
1-gamma, depth-3).  recur3 is that recursive call with depth already fixed. -/
def phaseNull (G : Game) (recur3 : Nat → Int → SState → Option (Int × SState))
    (gamma : Int) (d : Nat) (canNull : Bool) (pos : Nat)
    (best : Int) (done : Bool) (st : SState) : Option (Int × Bool × SState) :=
  if done then some (best, done, st)
  else if 2 < d ∧ canNull = true ∧ G.hasMajor pos = true then
    match recur3 (G.rotateNull pos) (1 - gamma) st with
    | none => none
    | some (r, st') => some (stepCand gamma pos none (-r) best st')
  else some (best, done, st)

/-- Stand-pat candidate (searcher.py lines 72-73): at depth 0 offer
pos.score with no move. -/
def phaseStandPat (G : Game) (gamma : Int) (d : Nat) (pos : Nat)
    (best : Int) (done : Bool) (st : SState) : Int × Bool × SState :=
  if done then (best, done, st)
  else if d = 0 then stepCand gamma pos none (G.score pos) best st
  else (best, done, st)

/-- Play the killer move if one is known and its value meets the active
threshold (searcher.py lines 93-94).  recur1 is bound at depth-1. -/
def killerGo (G : Game) (recur1 : Nat → Int → SState → Option (Int × SState))
    (gamma : Int) (pos : Nat) (vlow : Int) (ko : Option Nat)
    (best : Int) (st : SState) : Option (Int × Bool × SState) :=
  match ko with
  | none => some (best, false, st)
  | some k =>
    if vlow ≤ G.value pos k then
      match recur1 (G.moveApply pos k) (1 - gamma) st with
      | none => none
      | some (r, st') => some (stepCand gamma pos (some k) (-r) best st')
    else some (best, false, st)

/-- Killer phase (searcher.py lines 76-94): read tp_move; when absent and
depth > 2 run the internal-iterative-deepening probe
bound(pos, gamma, depth-3, can_null=False) purely for its side effect on
tp_move, re-read, then possibly play the killer.  The useIID flag selects
between the source behaviour (true) and the spec's probe-as-no-op variant
(false); the flag guards nothing else. -/
def phaseKiller (G : Game) (useIID : Bool) (probe : SState → Option (Int × SState))
    (recur1 : Nat → Int → SState → Option (Int × SState))
    (gamma : Int) (d : Nat) (pos : Nat) (vlow : Int)
    (best : Int) (done : Bool) (st : SState) : Option (Int × Bool × SState) :=
  if done then some (best, done, st)
  else
    match tpMoveFind st.tpMove pos with
    | some k => killerGo G recur1 gamma pos vlow (some k) best st
    | none =>
      if useIID = true ∧ 2 < d then
        match probe st with
        | none => none
        | some (_, st') => killerGo G recur1 gamma pos vlow (tpMoveFind st'.tpMove pos) best st'
      else killerGo G recur1 gamma pos vlow none best st

/-- The loop over the remaining moves in descending value order
(searcher.py lines 97-113): stop below the active threshold; futility-prune
at depth <= 1 when pos.score + val < gamma, yielding
(pos.score + val if val < MATE_LOWER else MATE_UPPER) and then stopping;
otherwise recurse.  The consumer's fold and fail-high break are merged in,
as the generator is only ever pulled by that consumer. -/
def mainLoop (G : Game) (recur1 : Nat → Int → SState → Option (Int × SState))
    (gamma : Int) (d : Nat) (pos : Nat) (vlow : Int) :
    List (Int × Nat) → Int → SState → Option (Int × SState)
  | [], best, st => some (best, st)
  | (v, m) :: rest, best, st =>
    if v < vlow then some (best, st)
    else if d ≤ 1 ∧ G.score pos + v < gamma then
      some ((stepCand gamma pos (some m) (if v < G.MATE_LOWER then G.score pos + v else G.MATE_UPPER) best st).1,
            (stepCand gamma pos (some m) (if v < G.MATE_LOWER then G.score pos + v else G.MATE_UPPER) best st).2.2)
    else
      match recur1 (G.moveApply pos m) (1 - gamma) st with
      | none => none
      | some (r, st') =>
        match stepCand gamma pos (some m) (-r) best st' with
        | (b', true, st'') => some (b', st'')
        | (b', false, st'') => mainLoop G recur1 gamma d pos vlow rest b' st''

/-- Table part 2 (searcher.py lines 149-153): store (best, entry.upper) on a
fail-high, (entry.lower, best) on a fail-low, where entry is the entry that
was read at the top of the call. -/
def tableUpdate (G : Game) (k : SKey) (entry : Entry) (gamma best : Int)
    (st : SState) : SState :=
  if gamma ≤ best then tpScoreSet st k ⟨best, entry.upper⟩
  else tpScoreSet st k ⟨entry.lower, best⟩

/-- The body of Searcher.bound (searcher.py lines 30-155) over an abstract
recursive call recur.  In order: node count, depth clamp, king-capture
terminal, table probe with cutoffs, repetition draw, the candidate phases
(null move, stand pat, killer with optional IID, remaining moves), the
mate/stalemate disambiguation at depth > 0, and the table store. -/
def boundBody (G : Game) (useIID : Bool)
    (recur : Nat → Int → Int → Bool → SState → Option (Int × SState))
    (pos : Nat) (gamma depth : Int) (canNull : Bool) (st0 : SState) :
    Option (Int × SState) :=
  let d : Nat := depth.toNat
  let st1 : SState := { st0 with nodes := st0.nodes + 1 }
  if G.score pos ≤ -G.MATE_LOWER then some (-G.MATE_UPPER, st1)
  else
    let es := tpScoreGet G st1 (pos, d, canNull)
    if gamma ≤ es.1.lower then some (es.1.lower, es.2)
    else if es.1.upper < gamma then some (es.1.upper, es.2)
    else if canNull = true ∧ 0 < d ∧ pos ∈ es.2.histSet then some ((0 : Int), es.2)
    else
      let vlow : Int := if d = 0 then QS else -G.MATE_LOWER
      match phaseNull G (fun p g s => recur p g (Int.ofNat d - 3) true s)
          gamma d canNull pos (-G.MATE_UPPER) false es.2 with
      | none => none
      | some (b1, dn1, st3) =>
        match phaseStandPat G gamma d pos b1 dn1 st3 with
        | (b2, dn2, st4) =>
          match phaseKiller G useIID (fun s => recur pos gamma (Int.ofNat d - 3) false s)
              (fun p g s => recur p g (Int.ofNat d - 1) true s)
              gamma d pos vlow b2 dn2 st4 with
          | none => none
          | some (b3, dn3, st5) =>
            match (if dn3 then some (b3, st5)
                   else mainLoop G (fun p g s => recur p g (Int.ofNat d - 1) true s)
                     gamma d pos vlow (movesSorted G pos) b3 st5) with
            | none => none
            | some (best0, st6) =>
              match (if 0 < d ∧ best0 = -G.MATE_UPPER then
                       match recur (G.rotateNull pos) G.MATE_UPPER 0 true st6 with
                       | none => none
                       | some (rc, st7) =>
                         some ((if rc = G.MATE_UPPER then -G.MATE_LOWER else (0 : Int)), st7)
                     else some (best0, st6)) with
              | none => none
              | some (best, st8) =>
                some (best, tableUpdate G (pos, d, canNull) es.1 gamma best st8)

/-- Fuelled tie of the recursive knot: fuel bounds the recursion depth;
none means the fuel ran out.  All recursive calls are the source behaviour
(useIID = true); the flag only selects the top call's variant. -/
def boundAux (G : Game) : Nat → Bool → Nat → Int → Int → Bool → SState → Option (Int × SState)
  | 0, _, _, _, _, _, _ => none
  | fuel + 1, useIID, pos, gamma, depth, canNull, st =>
    boundBody G useIID (fun p g dp c s => boundAux G fuel true p g dp c s) pos gamma depth canNull st

/-- Searcher.bound (searcher.py lines 30-155), with fuel. -/
def bound (G : Game) (fuel : Nat) (pos : Nat) (gamma depth : Int) (canNull : Bool)
    (st : SState) : Option (Int × SState) :=
  boundAux G fuel true pos gamma depth canNull st

/-- The spec-comparison variant of bound in which the top call's
internal-iterative-deepening probe is replaced by a no-op (the killer move
is then simply absent); recursive calls below the top are unchanged.
Defined to state the spec's claim that the probe never changes the result. -/
def boundNoIID (G : Game) (fuel : Nat) (pos : Nat) (gamma depth : Int) (canNull : Bool)
    (st : SState) : Option (Int × SState) :=
  boundAux G fuel false pos gamma depth canNull st

/-- Modelled from the spec: the true minimax value of a position under the
king-capture convention, to height h (spec sections 1, 3 and 8): a position
whose side to move has already lost its king is worth -MATE_UPPER; a
position with no moves is checkmate (-MATE_LOWER) when passing the turn
hands the opponent a winning (>= MATE_LOWER) position, else stalemate (0);
otherwise the value is the best negated child value. -/
def trueVal (G : Game) : Nat → Nat → Int
  | 0, pos => G.score pos
  | h + 1, pos =>
    if G.score pos ≤ -G.MATE_LOWER then -G.MATE_UPPER
    else if (G.genMoves pos).isEmpty then
      if G.MATE_LOWER ≤ trueVal G h (G.rotateNull pos) then -G.MATE_LOWER else 0
    else ((G.genMoves pos).map (fun m => -trueVal G h (G.moveApply pos m))).foldl max (-G.MATE_UPPER)

/-- The fail-soft contract of bound as the spec states it (spec section
4.2): with sStar the position's true value, a result below gamma is an
upper bound on sStar and a result at or above gamma is a lower bound. -/
def boundContract (sStar gamma r : Int) : Prop :=
  (sStar < gamma → sStar ≤ r ∧ r < gamma) ∧ (gamma ≤ sStar → gamma ≤ r ∧ r ≤ sStar)

/-- One emitted record of the driver: the window and gamma before a probe,
the probe's score, the window after, and the move yielded with the tuple
(searcher.py line 179). -/
structure Probe where
  depth : Nat
  lowerBefore : Int
  upperBefore : Int
  gamma : Int
  score : Int
  lowerAfter : Int
  upperAfter : Int
  emitted : Option Nat
deriving DecidableEq, Repr

/-- The per-depth binary-search loop of Searcher.search (searcher.py lines
172-180): while lower < upper - EVAL_ROUGHNESS, probe with
bound(root, gamma, depth, can_null=False), move the side of the window the
score falls on, emit the tuple, and recompute
gamma = (lower + upper + 1) // 2 with Python's floor division.  The loop
fuel n bounds the number of probes. -/
def innerLoop (G : Game) (bfuel : Nat) (root : Nat) (depth : Nat) :
    Nat → Int → Int → Int → SState → Option (Int × Int × Int × SState × List Probe)
  | 0, _, _, _, _ => none
  | n + 1, lower, upper, gamma, st =>
    if lower < upper - EVAL_ROUGHNESS then
      match bound G bfuel root gamma (Int.ofNat depth) false st with
      | none => none
      | some (score, st') =>
        match innerLoop G bfuel root depth n
            (if gamma ≤ score then score else lower)
            (if score < gamma then score else upper)
            (Int.fdiv ((if gamma ≤ score then score else lower) +
              (if score < gamma then score else upper) + 1) 2) st' with
        | none => none
        | some (lf, uf, gf, stf, prs) =>
          some (lf, uf, gf, stf,
            (⟨depth, lower, upper, gamma, score,
              (if gamma ≤ score then score else lower),
              (if score < gamma then score else upper),
              tpMoveFind st'.tpMove root⟩ : Probe) :: prs)
    else some (lower, upper, gamma, st, [])

/-- The outer depth iteration of Searcher.search (searcher.py lines
163-180): for each depth reset the window to [-MATE_LOWER, MATE_LOWER],
run the inner loop, and carry gamma over; nd bounds how many depths run. -/
def depthLoop (G : Game) (bfuel ifuel : Nat) (root : Nat) :
    Nat → Nat → Int → SState → Option (Int × SState × List Probe)
  | 0, _, gamma, st => some (gamma, st, [])
  | nd + 1, depth, gamma, st =>
    match innerLoop G bfuel root depth ifuel (-G.MATE_LOWER) G.MATE_LOWER gamma st with
    | none => none
    | some (_, _, gamma', st', prs) =>
      match depthLoop G bfuel ifuel root nd (depth + 1) gamma' st' with
      | none => none
      | some (g, stf, prs') => some (g, stf, prs ++ prs')

/-- Initialisation at the top of Searcher.search (searcher.py lines
159-161): the node counter is reset, the history set is replaced, and
tp_score is cleared.  tp_move is left exactly as it was. -/
def searchInit (history : List Nat) (st : SState) : SState :=
  { st with nodes := 0, histSet := history, tpScore := [] }

/-- Searcher.search (searcher.py lines 157-180): initialise, set gamma to 0
once, and run depths 1, 2, ... (nd many; the source caps at 999) rooted at
history[-1].  Returns the final gamma, the final state and the emitted
probe records. -/
def search (G : Game) (bfuel ifuel nd : Nat) (history : List Nat) (st : SState) :
    Option (Int × SState × List Probe) :=
  depthLoop G bfuel ifuel (history.getLastD 0) nd 1 0 (searchInit history st)

/-! ## Concrete games

Small explicit instances of the Position interface used to evaluate the
search on concrete inputs.  All of them use MATE_LOWER = 100 and
MATE_UPPER = 200 for the externally supplied sentinels. -/

/-- A trivial game: every position scores 0 and has no moves. -/
def gameT : Game :=
  ⟨fun _ => 0, fun _ _ => 0, fun _ _ => 0, fun p => p, fun _ => [], fun _ => false, 100, 200⟩

/-- A game with a forced king capture three plies deep behind a quiet move:
0 -(5)-> 1 -(6)-> 2, where position 2 has lost its king.  Position 0 is
quiet (score 0, its one move has value 0, below QS). -/
def gameC1 : Game where
  score := fun p => if p = 2 then -150 else 0
  value := fun _ _ => 0
  moveApply := fun p _ => if p = 0 then 1 else if p = 1 then 2 else 0
  rotateNull := fun p => p
  genMoves := fun p => if p = 0 then [5] else if p = 1 then [6] else []
  hasMajor := fun _ => false
  MATE_LOWER := 100
  MATE_UPPER := 200

/-- A game whose root 0 has one quiet move of intrinsic value exactly
MATE_LOWER (score stays 0 after it). -/
def gameC3 : Game where
  score := fun _ => 0
  value := fun _ _ => 100
  moveApply := fun _ _ => 1
  rotateNull := fun p => p
  genMoves := fun p => if p = 0 then [7] else []
  hasMajor := fun _ => false
  MATE_LOWER := 100
  MATE_UPPER := 200

/-- A game whose root 0 has no moves; its null-rotation 4 has a lost king,
so 0 is stalemated.  Move 7 (never generated, but playable from the move
cache) leads to the quiet dead-end position 3 with null-rotation 5. -/
def gameC2 : Game where
  score := fun p => if p = 4 then -150 else 0
  value := fun _ _ => 0
  moveApply := fun p m => if p = 0 ∧ m = 7 then 3 else 0
  rotateNull := fun p => if p = 0 then 4 else if p = 3 then 5 else p
  genMoves := fun _ => []
  hasMajor := fun _ => false
  MATE_LOWER := 100
  MATE_UPPER := 200

/-- A game with one capture: 0 -(9)-> 1, where 1 has a lost king; the move's
intrinsic value is only 10. -/
def gameC5 : Game where
  score := fun p => if p = 1 then -150 else 0
  value := fun _ _ => 10
  moveApply := fun _ _ => 1
  rotateNull := fun p => p
  genMoves := fun p => if p = 0 then [9] else []
  hasMajor := fun _ => false
  MATE_LOWER := 100
  MATE_UPPER := 200

/-- A game whose root 0 has already lost its king (score -150 <= -100). -/
def gameC6 : Game :=
  ⟨fun _ => -150, fun _ _ => 0, fun _ _ => 0, fun p => p, fun _ => [], fun _ => false, 100, 200⟩

/-- A game for the internal-iterative-deepening comparison.  Root 0 has
moves 10 (value 50, to the quiet but checkmated position 1) and 11
(value 40, a king capture into position 2).  Position 1 has no moves and
its null-rotation 3 can capture the king: 3 -(20, value 150)-> 4. -/
def gameC7 : Game where
  score := fun p => if p = 1 then -10 else if p = 2 ∨ p = 4 then -150 else 0
  value := fun p m => if p = 0 ∧ m = 10 then 50 else if p = 0 ∧ m = 11 then 40
    else if p = 3 ∧ m = 20 then 150 else 0
  moveApply := fun p m => if p = 0 ∧ m = 10 then 1 else if p = 0 ∧ m = 11 then 2
    else if p = 3 ∧ m = 20 then 4 else 0
  rotateNull := fun p => if p = 1 then 3 else p
  genMoves := fun p => if p = 0 then [10, 11] else if p = 3 then [20] else []
  hasMajor := fun _ => false
  MATE_LOWER := 100
  MATE_UPPER := 200

/-- A two-position cycle of moves of value 40 (at or above QS = 35):
0 -(30)-> 1 -(31)-> 0, with scores 0 and -20, so that at gamma = 10 neither
side ever stands pat and quiescence search recurses forever. -/
def gameC9 : Game where
  score := fun p => if p = 1 then -20 else 0
  value := fun _ _ => 40
  moveApply := fun p _ => if p = 0 then 1 else 0
  rotateNull := fun p => p
  genMoves := fun p => if p = 0 then [30] else if p = 1 then [31] else []
  hasMajor := fun _ => false
  MATE_LOWER := 100
  MATE_UPPER := 200

/-- A recursive-call stub that always fails: a run that succeeds against it
provably made no recursive call. -/
def noRecur : Nat → Int → SState → Option (Int × SState) := fun _ _ _ => none

/-- A state whose history contains position 0 (and nothing else). -/
def histState : SState := ⟨[], [], [0], 0⟩

/-- A searcher state left over from an earlier search call: the move cache
remembers move 7 for position 0. -/
def staleState : SState := ⟨[], [(0, 7)], [], 77⟩

/-- Two successive bound calls on gameC5 at the same table key (0, 1, true),
first with gamma = 50 and then with gamma = 5, returning what the score
table then stores under that key. -/
def c5run : Option Entry :=
  match bound gameC5 5 0 50 1 true initState with
  | none => none
  | some (_, st1) =>
    match bound gameC5 5 0 5 1 true st1 with
    | none => none
    | some (_, st2) => tpScoreFind st2.tpScore (0, 1, true)

/-- The final window (lower, upper) of the depth-1 driver iteration on
gameC6 starting from the reset window and gamma = 0. -/
def c6run : Option (Int × Int) :=
  match innerLoop gameC6 3 0 1 3 (-100) 100 0 initState with
  | none => none
  | some (l, u, _, _, _) => some (l, u)

/-- The moves emitted by a two-depth search on gameC2 from a given prior
searcher state, with history [0]. -/
def c2emits (st : SState) : Option (List (Option Nat)) :=
  match search gameC2 8 5 2 [0] st with
  | none => none
  | some (_, _, prs) => some (prs.map Probe.emitted)

/-- The searcher states reachable while gameC9's two-position capture cycle
is searched at depth 0: the two quiescence keys hold at most the default
entry and no killer move is cached for either position, so no table cutoff
or killer short-cut can ever interrupt the cycle. -/
def c9ok (st : SState) : Prop :=
  (tpScoreFind st.tpScore (0, 0, true) = none
      ∨ tpScoreFind st.tpScore (0, 0, true) = some (entryDefault gameC9))
    ∧ (tpScoreFind st.tpScore (1, 0, true) = none
      ∨ tpScoreFind st.tpScore (1, 0, true) = some (entryDefault gameC9))
    ∧ tpMoveFind st.tpMove 0 = none ∧ tpMoveFind st.tpMove 1 = none

/-- One move-cache list keeps another when every position that has a cached
move in the first still has one (possibly different) in the second.  The
searcher only ever adds or overwrites move-cache entries, so every
operation keeps the cache in this sense. -/
def movesKeep (l l' : List (Nat × Nat)) : Prop :=
  ∀ p, (tpMoveFind l p).isSome = true → (tpMoveFind l' p).isSome = true

/-- Relation between consecutive probes within one depth iteration: the
windows link up, gamma is recomputed as the floor midpoint of the previous
window, and the later probe moves its window monotonically (lower does not
decrease, upper does not increase). -/
def innerRel (a b : Probe) : Prop :=
  b.lowerBefore = a.lowerAfter ∧ b.upperBefore = a.upperAfter ∧
    b.gamma = Int.fdiv (a.lowerAfter + a.upperAfter + 1) 2 ∧
    b.lowerBefore ≤ b.lowerAfter ∧ b.upperAfter ≤ b.upperBefore

/-- What one depth iteration of the driver guarantees about its probes,
given entry window (l, u), entry gamma g and exit values (lf, uf, gf): an
empty probe list leaves everything unchanged; the first probe starts from
the entry window and gamma; the last probe's updated window is the exit
window, with the exit gamma recomputed from it; every probe ran only while
upper - lower > EVAL_ROUGHNESS and moved exactly the side of its window
its score fell on; the loop exits only once upper - lower is within
EVAL_ROUGHNESS; and consecutive probes are linked by innerRel, so from the
second probe of the depth onward lower never decreases and upper never
increases. -/
def innerLoopInv (depth : Nat) (l u g lf uf gf : Int) (prs : List Probe) : Prop :=
  (prs = [] → lf = l ∧ uf = u ∧ gf = g)
    ∧ (∀ pr ∈ prs.head?, pr.gamma = g ∧ pr.lowerBefore = l ∧ pr.upperBefore = u)
    ∧ (∀ pr ∈ prs.getLast?, pr.lowerAfter = lf ∧ pr.upperAfter = uf
        ∧ gf = Int.fdiv (lf + uf + 1) 2)
    ∧ (∀ pr ∈ prs, pr.depth = depth
        ∧ EVAL_ROUGHNESS < pr.upperBefore - pr.lowerBefore
        ∧ pr.lowerAfter = (if pr.gamma ≤ pr.score then pr.score else pr.lowerBefore)
        ∧ pr.upperAfter = (if pr.score < pr.gamma then pr.score else pr.upperBefore))
    ∧ uf - lf ≤ EVAL_ROUGHNESS
    ∧ List.Chain' innerRel prs

/-- Relation between consecutive probes of a whole search run: gamma is
always recomputed from the previous probe's updated window (never reset),
and the window either links up (same depth) or is re-initialised to
[-MATE_LOWER, MATE_LOWER] as the depth advances by one. -/
def stepRel (G : Game) (a b : Probe) : Prop :=
  b.gamma = Int.fdiv (a.lowerAfter + a.upperAfter + 1) 2 ∧
    ((b.depth = a.depth ∧ b.lowerBefore = a.lowerAfter ∧ b.upperBefore = a.upperAfter)
      ∨ (b.depth = a.depth + 1 ∧ b.lowerBefore = -G.MATE_LOWER ∧ b.upperBefore = G.MATE_LOWER))

/-! ## Basic facts about the state helpers -/

theorem tpScoreGet_fst (G : Game) (st : SState) (k : SKey) :
    (tpScoreGet G st k).1 = lookupEntry G st k := by
  unfold tpScoreGet lookupEntry
  cases tpScoreFind st.tpScore k <;> rfl

theorem tpScoreGet_snd_histSet (G : Game) (st : SState) (k : SKey) :
    (tpScoreGet G st k).2.histSet = st.histSet := by
  unfold tpScoreGet
  cases tpScoreFind st.tpScore k <;> rfl

theorem lookupEntry_nodes (G : Game) (st : SState) (n : Nat) (k : SKey) :
    lookupEntry G { st with nodes := n } k = lookupEntry G st k := rfl

theorem lookupEntry_set_self (G : Game) (st : SState) (k : SKey) (e : Entry) :
    lookupEntry G (tpScoreSet st k e) k = e := by
  unfold lookupEntry tpScoreSet tpScoreFind
  simp

/-! ## The consumer fold only raises best -/

theorem stepCand_fst (gamma : Int) (pos : Nat) (mv : Option Nat) (s best : Int) (st : SState) :
    (stepCand gamma pos mv s best st).1 = max best s := by
  unfold stepCand
  split <;> rfl

theorem le_stepCand_fst (gamma : Int) (pos : Nat) (mv : Option Nat) (s best : Int) (st : SState) :
    best ≤ (stepCand gamma pos mv s best st).1 := by
  rw [stepCand_fst]
  exact le_max_left _ _

theorem killerGo_ge (G : Game) (recur : Nat → Int → SState → Option (Int × SState))
    (gamma : Int) (pos : Nat) (vlow : Int) (ko : Option Nat) (best : Int) (st : SState)
    (b' : Int) (dn' : Bool) (st' : SState)
    (h : killerGo G recur gamma pos vlow ko best st = some (b', dn', st')) : best ≤ b' := by
  cases ko with
  | none =>
    simp [killerGo, Option.some.injEq, Prod.mk.injEq] at h
    omega
  | some k =>
    by_cases hv : vlow ≤ G.value pos k
    · cases hrec : recur (G.moveApply pos k) (1 - gamma) st with
      | none => simp [killerGo, hv, if_true, hrec] at h
      | some p =>
        obtain ⟨r, st2⟩ := p
        simp [killerGo, hv, if_true, hrec, Option.some.injEq] at h
        have h2 := le_stepCand_fst gamma pos (some k) (-r) best st2
        rw [h] at h2
        exact h2
    · simp [killerGo, hv, if_false, Option.some.injEq, Prod.mk.injEq] at h
      omega

theorem phaseKiller_ge (G : Game) (useIID : Bool) (probe : SState → Option (Int × SState))
    (recur : Nat → Int → SState → Option (Int × SState))
    (gamma : Int) (d pos : Nat) (vlow best : Int) (done : Bool) (st : SState)
    (b' : Int) (dn' : Bool) (st' : SState)
    (h : phaseKiller G useIID probe recur gamma d pos vlow best done st = some (b', dn', st')) :
    best ≤ b' := by
  by_cases hdn : done = true
  · simp [phaseKiller, hdn, if_true, Option.some.injEq, Prod.mk.injEq] at h
    omega
  · cases hf : tpMoveFind st.tpMove pos with
    | some k =>
      simp [phaseKiller, hdn, if_false, hf] at h
      exact killerGo_ge _ _ _ _ _ _ _ _ _ _ _ h
    | none =>
      by_cases hg : useIID = true ∧ 2 < d
      · cases hp : probe st with
        | none => simp [phaseKiller, hdn, if_false, hf, hg, and_self, if_true, hp] at h
        | some p =>
          obtain ⟨r, st2⟩ := p
          simp [phaseKiller, hdn, if_false, hf, hg, and_self, if_true, hp] at h
          exact killerGo_ge _ _ _ _ _ _ _ _ _ _ _ h
      · simp [phaseKiller, hdn, if_false, hf, hg] at h
        exact killerGo_ge _ _ _ _ _ _ _ _ _ _ _ h

theorem phaseNull_ge (G : Game) (recur : Nat → Int → SState → Option (Int × SState))
    (gamma : Int) (d : Nat) (canNull : Bool) (pos : Nat) (best : Int) (done : Bool) (st : SState)
    (b' : Int) (dn' : Bool) (st' : SState)
    (h : phaseNull G recur gamma d canNull pos best done st = some (b', dn', st')) :
    best ≤ b' := by
  by_cases hdn : done = true
  · simp [phaseNull, hdn, if_true, Option.some.injEq, Prod.mk.injEq] at h
    omega
  · by_cases hg : 2 < d ∧ canNull = true ∧ G.hasMajor pos = true
    · cases hrec : recur (G.rotateNull pos) (1 - gamma) st with
      | none => simp [phaseNull, hdn, if_false, hg, and_self, if_true, hrec] at h
      | some p =>
        obtain ⟨r, st2⟩ := p
        simp [phaseNull, hdn, if_false, hg, and_self, if_true, hrec,
          Option.some.injEq] at h
        have h2 := le_stepCand_fst gamma pos none (-r) best st2
        rw [h] at h2
        exact h2
    · simp [phaseNull, hdn, if_false, hg, Option.some.injEq, Prod.mk.injEq] at h
      omega

theorem phaseStandPat_ge (G : Game) (gamma : Int) (d pos : Nat) (best : Int) (done : Bool)
    (st : SState) : best ≤ (phaseStandPat G gamma d pos best done st).1 := by
  by_cases hdn : done = true
  · simp [phaseStandPat, hdn]
  · by_cases hd : d = 0
    · have h2 := le_stepCand_fst gamma pos none (G.score pos) best st
      simpa [phaseStandPat, hdn, hd] using h2
    · simp [phaseStandPat, hdn, hd]

theorem mainLoop_ge (G : Game) (recur : Nat → Int → SState → Option (Int × SState))
    (gamma : Int) (d pos : Nat) (vlow : Int) (ms : List (Int × Nat)) :
    ∀ best st b' st', mainLoop G recur gamma d pos vlow ms best st = some (b', st') →
      best ≤ b' := by
  induction ms with
  | nil =>
    intro best st b' st' h
    simp [mainLoop, Option.some.injEq, Prod.mk.injEq] at h
    omega
  | cons vm rest ih =>
    intro best st b' st' h
    obtain ⟨v, m⟩ := vm
    by_cases h1 : v < vlow
    · simp [mainLoop, h1, if_true, Option.some.injEq, Prod.mk.injEq] at h
      omega
    · by_cases h2 : d ≤ 1 ∧ G.score pos + v < gamma
      · simp [mainLoop, h1, if_false, h2, and_self, if_true, Option.some.injEq,
          Prod.mk.injEq] at h
        have h3 := le_stepCand_fst gamma pos (some m)
          (if v < G.MATE_LOWER then G.score pos + v else G.MATE_UPPER) best st
        omega
      · cases hrec : recur (G.moveApply pos m) (1 - gamma) st with
        | none => simp [mainLoop, h1, if_false, h2, hrec] at h
        | some p =>
          obtain ⟨r, st2⟩ := p
          simp [mainLoop, h1, if_false, h2, hrec] at h
          rcases hsc : stepCand gamma pos (some m) (-r) best st2 with ⟨b1, dn1, st1⟩
          rw [hsc] at h
          have hb1 : best ≤ b1 := by
            have h4 := le_stepCand_fst gamma pos (some m) (-r) best st2
            rw [hsc] at h4
            exact h4
          cases dn1 with
          | true =>
            simp only [Option.some.injEq, Prod.mk.injEq] at h
            omega
          | false => exact le_trans hb1 (ih b1 st1 b' st' h)

/-! ## Claim C8 -/

/-- C8: for every gamma, depth and canNull, if pos.score <= -MATE_LOWER (the
side to move's king is already lost) then bound returns -MATE_UPPER
unconditionally, before any table access, repetition check or move
evaluation — the resulting state differs from the input state only in the
node counter. -/
theorem C8_king_capture_terminal (G : Game) (fuel pos : Nat) (gamma depth : Int)
    (canNull : Bool) (st : SState) (h : G.score pos ≤ -G.MATE_LOWER) :
    bound G (fuel + 1) pos gamma depth canNull st
      = some (-G.MATE_UPPER, { st with nodes := st.nodes + 1 }) := by
  unfold bound boundAux boundBody
  rw [if_pos h]

theorem C8_witness :
    gameC6.score 0 ≤ -gameC6.MATE_LOWER
      ∧ bound gameC6 1 0 0 0 true initState
          = some (-gameC6.MATE_UPPER, { initState with nodes := initState.nodes + 1 }) :=
  ⟨by decide, C8_king_capture_terminal gameC6 0 0 0 0 true initState (by decide)⟩

/-! ## Claim C2 -/

/-- C2, counterexample: a move-cache entry stored before a search call is
still there during the call and is emitted with every result tuple of a
two-depth search on gameC2, while the identical search from a state with an
empty move cache emits no move.  So the move cache is not cleared by
search, and stale entries influence its output. -/
theorem C2_counterexample :
    staleState.tpMove = [(0, 7)]
      ∧ c2emits staleState = some [some 7, some 7, some 7, some 7]
      ∧ c2emits initState = some [none, none, none, none] := by decide

/-- C2 as amended: at the start of a top-level search call the node counter
is reset, the history set is replaced, and the score transposition table is
cleared, but the move cache tp_move is left exactly as the previous calls
left it. -/
theorem C2_search_init_state (history : List Nat) (st : SState) :
    (searchInit history st).tpScore = [] ∧ (searchInit history st).nodes = 0
      ∧ (searchInit history st).histSet = history
      ∧ (searchInit history st).tpMove = st.tpMove :=
  ⟨rfl, rfl, rfl, rfl⟩

/-! ## Claim C3 -/

/-- C3, counterexample: in gameC3 the root's only move has intrinsic value
100 = MATE_LOWER and pos.score + value = 100 < gamma = 150, so futility
fires; the yielded candidate score is MATE_UPPER = 200, not
min(pos.score + value, MATE_UPPER) = 100, and the loop then returns with
the move recorded.  The run uses the always-failing recursion stub, so no
recursive bound call was made. -/
theorem C3_counterexample :
    mainLoop gameC3 noRecur 150 1 0 (-100) (movesSorted gameC3 0) (-200) initState
        = some (200, tpMoveSet initState 0 7)
      ∧ min (gameC3.score 0 + gameC3.value 0 7) gameC3.MATE_UPPER = 100
      ∧ ((200 : Int) ≠ 100) := by decide

/-- C3 as amended: for a move reached in the candidate loop with
depth <= 1 and pos.score + value < gamma (and value at or above the active
threshold), the yielded candidate score is pos.score + value when
value < MATE_LOWER and MATE_UPPER otherwise; no recursive bound call is
made for it and no further moves are evaluated — the result does not
depend on the recursion function or on the remaining moves. -/
theorem C3_futility_yield (G : Game) (recur : Nat → Int → SState → Option (Int × SState))
    (gamma : Int) (d pos : Nat) (vlow v : Int) (m : Nat) (rest : List (Int × Nat))
    (best : Int) (st : SState)
    (hd : d ≤ 1) (hfut : G.score pos + v < gamma) (hv : ¬ v < vlow) :
    mainLoop G recur gamma d pos vlow ((v, m) :: rest) best st
      = some ((stepCand gamma pos (some m)
                (if v < G.MATE_LOWER then G.score pos + v else G.MATE_UPPER) best st).1,
              (stepCand gamma pos (some m)
                (if v < G.MATE_LOWER then G.score pos + v else G.MATE_UPPER) best st).2.2) := by
  unfold mainLoop
  rw [if_neg hv, if_pos ⟨hd, hfut⟩]

theorem C3_witness :
    mainLoop gameC3 noRecur 150 1 0 (-100) [(100, 7), (99, 8)] (-200) initState
      = some ((stepCand 150 0 (some 7)
                (if (100 : Int) < gameC3.MATE_LOWER then gameC3.score 0 + 100 else gameC3.MATE_UPPER)
                (-200) initState).1,
              (stepCand 150 0 (some 7)
                (if (100 : Int) < gameC3.MATE_LOWER then gameC3.score 0 + 100 else gameC3.MATE_UPPER)
                (-200) initState).2.2) :=
  C3_futility_yield gameC3 noRecur 150 1 0 (-100) 100 7 [(99, 8)] (-200) initState
    (by decide) (by decide) (by decide)

/-! ## Claim C4 -/

/-- C4, counterexample: on the trivial game with history [0], depth 1,
canNull = true and pos.score = 0 > -MATE_LOWER, the call with
gamma = -MATE_UPPER returns -MATE_UPPER, not 0: the table probe precedes
the repetition check and the default entry's lower bound -MATE_UPPER
already satisfies lower >= gamma. -/
theorem C4_counterexample :
    gameT.score 0 = 0 ∧ (0 : Nat) ∈ histState.histSet
      ∧ (bound gameT 5 0 (-200) 1 true histState).map Prod.fst = some (-200)
      ∧ ((-200 : Int) ≠ 0) := by decide

/-- C4 as amended: a call with canNull = true, depth > 0, the position in
the history set and pos.score > -MATE_LOWER returns 0, provided the score
table's entry for the key (pos, depth, canNull) — the default entry when
absent — does not already answer the query (its lower bound is below gamma
and its upper bound at least gamma). -/
theorem C4_repetition_draw (G : Game) (fuel pos : Nat) (gamma depth : Int) (st : SState)
    (hd : 0 < depth)
    (hk : -G.MATE_LOWER < G.score pos)
    (hh : pos ∈ st.histSet)
    (hl : (lookupEntry G st (pos, depth.toNat, true)).lower < gamma)
    (hu : gamma ≤ (lookupEntry G st (pos, depth.toNat, true)).upper) :
    (bound G (fuel + 1) pos gamma depth true st).map Prod.fst = some 0 := by
  unfold bound boundAux boundBody
  rw [if_neg (not_le.mpr hk)]
  simp only [tpScoreGet_fst, lookupEntry_nodes, tpScoreGet_snd_histSet]
  rw [if_neg (not_le.mpr hl), if_neg (not_lt.mpr hu)]
  rw [if_pos ⟨trivial, by omega, hh⟩]
  rfl

theorem C4_witness :
    (0 : Int) < 1 ∧ -gameT.MATE_LOWER < gameT.score 0 ∧ (0 : Nat) ∈ histState.histSet
      ∧ (lookupEntry gameT histState (0, (1 : Int).toNat, true)).lower < 0
      ∧ (0 : Int) ≤ (lookupEntry gameT histState (0, (1 : Int).toNat, true)).upper
      ∧ (bound gameT 5 0 0 1 true histState).map Prod.fst = some 0 :=
  ⟨by decide, by decide, by decide, by decide, by decide,
    C4_repetition_draw gameT 4 0 0 1 histState (by decide) (by decide) (by decide)
      (by decide) (by decide)⟩

/-! ## Claim C5 -/

/-- C5, counterexample: two successive bound calls on gameC5 at the same
key (0, 1, true) — a futility fail-low at gamma = 50 storing upper = 10,
then a fail-high at gamma = 5 whose recursion finds the king capture worth
200 — leave the key holding the entry (lower = 200, upper = 10), violating
lower <= upper. -/
theorem C5_counterexample :
    c5run = some ⟨200, 10⟩ ∧ ¬ ((200 : Int) ≤ 10) := by decide

/-- C5 as amended: each single store made by a completed bound call
tightens the entry the call read at its start (the read entry, by the
cutoff checks, had lower < gamma <= upper): the stored entry never lowers
that entry's lower bound nor raises its upper bound, a fail-high store
raises the lower bound to best >= gamma keeping the read upper bound, and
a fail-low store lowers the upper bound to best < gamma keeping the read
lower bound.  The invariant lower <= upper of the stored entry itself can
fail when another call touched the same key between the read and the
store. -/
theorem C5_store_tightens (G : Game) (k : SKey) (entry : Entry) (gamma best : Int)
    (st : SState) (hl : entry.lower < gamma) (hu : gamma ≤ entry.upper) :
    lookupEntry G (tableUpdate G k entry gamma best st) k
        = (if gamma ≤ best then (⟨best, entry.upper⟩ : Entry) else ⟨entry.lower, best⟩)
      ∧ entry.lower ≤ (lookupEntry G (tableUpdate G k entry gamma best st) k).lower
      ∧ (lookupEntry G (tableUpdate G k entry gamma best st) k).upper ≤ entry.upper
      ∧ (gamma ≤ best → gamma ≤ (lookupEntry G (tableUpdate G k entry gamma best st) k).lower)
      ∧ (best < gamma → (lookupEntry G (tableUpdate G k entry gamma best st) k).upper < gamma) := by
  have hE : lookupEntry G (tableUpdate G k entry gamma best st) k
      = (if gamma ≤ best then (⟨best, entry.upper⟩ : Entry) else ⟨entry.lower, best⟩) := by
    unfold tableUpdate
    by_cases hb : gamma ≤ best
    · rw [if_pos hb, if_pos hb, lookupEntry_set_self]
    · rw [if_neg hb, if_neg hb, lookupEntry_set_self]
  rw [hE]
  by_cases hb : gamma ≤ best
  · rw [if_pos hb]
    refine ⟨rfl, ?_, ?_, fun _ => ?_, fun hc => absurd hb (not_le.mpr hc)⟩
    · show entry.lower ≤ best
      omega
    · show entry.upper ≤ entry.upper
      exact le_refl _
    · show gamma ≤ best
      exact hb
  · rw [if_neg hb]
    refine ⟨rfl, ?_, ?_, fun hc => absurd hc hb, fun _ => ?_⟩
    · show entry.lower ≤ entry.lower
      exact le_refl _
    · show best ≤ entry.upper
      omega
    · show best < gamma
      omega

theorem C5_witness :
    (Entry.mk (-200) 200).lower < 0 ∧ (0 : Int) ≤ (Entry.mk (-200) 200).upper
      ∧ lookupEntry gameT (tableUpdate gameT (0, 1, true) ⟨-200, 200⟩ 0 7 initState) (0, 1, true)
          = (if (0 : Int) ≤ 7 then (⟨7, 200⟩ : Entry) else ⟨-200, 7⟩) :=
  ⟨by decide, by decide,
    (C5_store_tightens gameT (0, 1, true) ⟨-200, 200⟩ 0 7 initState (by decide) (by decide)).1⟩

/-! ## Claim C1 -/

/-- C1, counterexample: in gameC1 the root is quiet (score 0, its one move
is below the quiescence threshold) but loses by force, so its true minimax
value is -MATE_UPPER = -200 < gamma = 0; yet bound at depth 0 stands pat
and returns r = 0, which is neither an upper bound below gamma nor a lower
bound below the true value: the stated contract fails. -/
theorem C1_counterexample :
    (bound gameC1 5 0 0 0 true initState).map Prod.fst = some 0
      ∧ trueVal gameC1 3 0 = -200
      ∧ ¬ boundContract (trueVal gameC1 3 0) 0 0 := by
  refine ⟨by decide, by decide, ?_⟩
  unfold boundContract
  decide

/-- C1 as amended: bound's result is fail-soft with respect to the static
evaluation rather than the true minimax value.  At depth 0 (quiescence),
whenever the king is not already lost and the table probe does not cut
off, the returned value is at least pos.score — the stand-pat candidate
anchors the result — but it is not in general a valid bound on the true
minimax value (see the counterexample). -/
theorem C1_qs_standpat_anchor (G : Game) (fuel pos : Nat) (gamma : Int) (canNull : Bool)
    (st : SState) (r : Int)
    (hk : -G.MATE_LOWER < G.score pos)
    (hl : (lookupEntry G st (pos, 0, canNull)).lower < gamma)
    (hu : gamma ≤ (lookupEntry G st (pos, 0, canNull)).upper)
    (hr : (bound G fuel pos gamma 0 canNull st).map Prod.fst = some r) :
    G.score pos ≤ r := by
  cases fuel with
  | zero => exact absurd hr (by simp [bound, boundAux])
  | succ n =>
    unfold bound boundAux boundBody at hr
    rw [if_neg (not_le.mpr hk)] at hr
    simp only [tpScoreGet_fst, lookupEntry_nodes, Int.toNat_zero] at hr
    rw [if_neg (not_le.mpr hl), if_neg (not_lt.mpr hu)] at hr
    rw [if_neg (by rintro ⟨-, h0, -⟩; omega)] at hr
    rw [show phaseNull G (fun p g s => boundAux G n true p g (Int.ofNat 0 - 3) true s)
          gamma 0 canNull pos (-G.MATE_UPPER) false
          (tpScoreGet G { st with nodes := st.nodes + 1 } (pos, 0, canNull)).2
        = some (-G.MATE_UPPER, false,
            (tpScoreGet G { st with nodes := st.nodes + 1 } (pos, 0, canNull)).2) by
      unfold phaseNull
      rw [if_neg (by simp), if_neg (by rintro ⟨h2, -⟩; omega)]] at hr
    dsimp only at hr
    rw [show phaseStandPat G gamma 0 pos (-G.MATE_UPPER) false
          (tpScoreGet G { st with nodes := st.nodes + 1 } (pos, 0, canNull)).2
        = stepCand gamma pos none (G.score pos) (-G.MATE_UPPER)
            (tpScoreGet G { st with nodes := st.nodes + 1 } (pos, 0, canNull)).2 by
      unfold phaseStandPat
      rw [if_neg (by simp), if_pos rfl]] at hr
    rcases hsc : stepCand gamma pos none (G.score pos) (-G.MATE_UPPER)
        (tpScoreGet G { st with nodes := st.nodes + 1 } (pos, 0, canNull)).2
      with ⟨b2, dn2, st4⟩
    have hb2 : G.score pos ≤ b2 := by
      have h1 := stepCand_fst gamma pos none (G.score pos) (-G.MATE_UPPER)
        (tpScoreGet G { st with nodes := st.nodes + 1 } (pos, 0, canNull)).2
      rw [hsc] at h1
      simp only at h1
      rw [h1]
      exact le_max_right _ _
    rw [hsc] at hr
    dsimp only at hr
    simp only [if_true] at hr
    cases hpk : phaseKiller G true
        (fun s => boundAux G n true pos gamma (Int.ofNat 0 - 3) false s)
        (fun p g s => boundAux G n true p g (Int.ofNat 0 - 1) true s)
        gamma 0 pos QS b2 dn2 st4 with
    | none => rw [hpk] at hr; exact absurd hr (by simp)
    | some t =>
      obtain ⟨b3, dn3, st5⟩ := t
      have hb3 : b2 ≤ b3 := phaseKiller_ge _ _ _ _ _ _ _ _ _ _ _ _ _ _ hpk
      rw [hpk] at hr
      dsimp only at hr
      cases dn3 with
      | true =>
        rw [if_pos rfl] at hr
        dsimp only at hr
        rw [if_neg (show ¬((0 : Nat) < 0 ∧ b3 = -G.MATE_UPPER) from
          fun hc => absurd hc.1 (by decide))] at hr
        simp at hr
        omega
      | false =>
        rw [if_neg (show ¬(false = true) from by decide)] at hr
        cases hml : mainLoop G (fun p g s => boundAux G n true p g (Int.ofNat 0 - 1) true s)
            gamma 0 pos QS (movesSorted G pos) b3 st5 with
        | none => rw [hml] at hr; simp at hr
        | some q =>
          obtain ⟨best0, st6⟩ := q
          have hb0 : b3 ≤ best0 := mainLoop_ge _ _ _ _ _ _ _ _ _ _ _ hml
          rw [hml] at hr
          dsimp only at hr
          rw [if_neg (show ¬((0 : Nat) < 0 ∧ best0 = -G.MATE_UPPER) from
            fun hc => absurd hc.1 (by decide))] at hr
          simp at hr
          omega

theorem C1_witness :
    -gameC1.MATE_LOWER < gameC1.score 0
      ∧ (lookupEntry gameC1 initState (0, 0, true)).lower < 0
      ∧ (0 : Int) ≤ (lookupEntry gameC1 initState (0, 0, true)).upper
      ∧ gameC1.score 0 ≤ 0 :=
  ⟨by decide, by decide, by decide,
    C1_qs_standpat_anchor gameC1 5 0 0 true initState 0 (by decide)
      (by decide) (by decide) (by decide)⟩

/-! ## The move cache only grows -/

theorem movesKeep_refl (l : List (Nat × Nat)) : movesKeep l l := fun _ h => h

theorem movesKeep_of_eq {l l' : List (Nat × Nat)} (h : l = l') : movesKeep l l' :=
  h ▸ movesKeep_refl l

theorem movesKeep_trans {a b c : List (Nat × Nat)} (h1 : movesKeep a b) (h2 : movesKeep b c) :
    movesKeep a c := fun p hp => h2 p (h1 p hp)

theorem movesKeep_cons (l : List (Nat × Nat)) (p m : Nat) : movesKeep l ((p, m) :: l) := by
  intro q hq
  by_cases hpq : p = q <;> simp [tpMoveFind, hpq, hq]

theorem tpScoreGet_snd_tpMove (G : Game) (st : SState) (k : SKey) :
    (tpScoreGet G st k).2.tpMove = st.tpMove := by
  unfold tpScoreGet
  cases tpScoreFind st.tpScore k <;> rfl

theorem tableUpdate_tpMove (G : Game) (k : SKey) (entry : Entry) (gamma best : Int)
    (st : SState) : (tableUpdate G k entry gamma best st).tpMove = st.tpMove := by
  unfold tableUpdate
  split <;> rfl

theorem stepCand_keep (gamma : Int) (pos : Nat) (mv : Option Nat) (s best : Int) (st : SState) :
    movesKeep st.tpMove (stepCand gamma pos mv s best st).2.2.tpMove := by
  unfold stepCand
  split
  · cases mv with
    | none => exact movesKeep_refl _
    | some m => exact movesKeep_cons _ _ _
  · exact movesKeep_refl _

theorem killerGo_keep (G : Game) (recur : Nat → Int → SState → Option (Int × SState))
    (gamma : Int) (pos : Nat) (vlow : Int) (ko : Option Nat) (best : Int) (st : SState)
    (b' : Int) (dn' : Bool) (st' : SState)
    (hrec : ∀ p g s r s', recur p g s = some (r, s') → movesKeep s.tpMove s'.tpMove)
    (h : killerGo G recur gamma pos vlow ko best st = some (b', dn', st')) :
    movesKeep st.tpMove st'.tpMove := by
  cases ko with
  | none =>
    simp only [killerGo, Option.some.injEq, Prod.mk.injEq] at h
    exact movesKeep_of_eq (by rw [h.2.2])
  | some k =>
    by_cases hv : vlow ≤ G.value pos k
    · cases hrec' : recur (G.moveApply pos k) (1 - gamma) st with
      | none => simp [killerGo, hv, hrec'] at h
      | some p =>
        obtain ⟨r, st2⟩ := p
        simp [killerGo, hv, hrec', Option.some.injEq] at h
        refine movesKeep_trans (hrec _ _ _ _ _ hrec') ?_
        have h2 := stepCand_keep gamma pos (some k) (-r) best st2
        rw [h] at h2
        exact h2
    · simp [killerGo, hv, Option.some.injEq, Prod.mk.injEq] at h
      exact movesKeep_of_eq (by rw [h.2.2])

theorem phaseNull_keep (G : Game) (recur : Nat → Int → SState → Option (Int × SState))
    (gamma : Int) (d : Nat) (canNull : Bool) (pos : Nat) (best : Int) (done : Bool) (st : SState)
    (b' : Int) (dn' : Bool) (st' : SState)
    (hrec : ∀ p g s r s', recur p g s = some (r, s') → movesKeep s.tpMove s'.tpMove)
    (h : phaseNull G recur gamma d canNull pos best done st = some (b', dn', st')) :
    movesKeep st.tpMove st'.tpMove := by
  by_cases hdn : done = true
  · simp [phaseNull, hdn, Option.some.injEq, Prod.mk.injEq] at h
    exact movesKeep_of_eq (by rw [h.2.2])
  · by_cases hg : 2 < d ∧ canNull = true ∧ G.hasMajor pos = true
    · cases hrec' : recur (G.rotateNull pos) (1 - gamma) st with
      | none => simp [phaseNull, hdn, hg, hrec'] at h
      | some p =>
        obtain ⟨r, st2⟩ := p
        simp [phaseNull, hdn, hg, hrec', Option.some.injEq] at h
        refine movesKeep_trans (hrec _ _ _ _ _ hrec') ?_
        have h2 := stepCand_keep gamma pos none (-r) best st2
        rw [h] at h2
        exact h2
    · simp [phaseNull, hdn, hg, Option.some.injEq, Prod.mk.injEq] at h
      exact movesKeep_of_eq (by rw [h.2.2])

theorem phaseStandPat_keep (G : Game) (gamma : Int) (d pos : Nat) (best : Int) (done : Bool)
    (st : SState) : movesKeep st.tpMove (phaseStandPat G gamma d pos best done st).2.2.tpMove := by
  by_cases hdn : done = true
  · simp [phaseStandPat, hdn]
    exact movesKeep_refl _
  · by_cases hd : d = 0
    · have h2 := stepCand_keep gamma pos none (G.score pos) best st
      simpa [phaseStandPat, hdn, hd] using h2
    · simp [phaseStandPat, hdn, hd]
      exact movesKeep_refl _

theorem phaseKiller_keep (G : Game) (useIID : Bool) (probe : SState → Option (Int × SState))
    (recur : Nat → Int → SState → Option (Int × SState))
    (gamma : Int) (d pos : Nat) (vlow best : Int) (done : Bool) (st : SState)
    (b' : Int) (dn' : Bool) (st' : SState)
    (hprobe : ∀ s r s', probe s = some (r, s') → movesKeep s.tpMove s'.tpMove)
    (hrec : ∀ p g s r s', recur p g s = some (r, s') → movesKeep s.tpMove s'.tpMove)
    (h : phaseKiller G useIID probe recur gamma d pos vlow best done st = some (b', dn', st')) :
    movesKeep st.tpMove st'.tpMove := by
  by_cases hdn : done = true
  · simp [phaseKiller, hdn, Option.some.injEq, Prod.mk.injEq] at h
    exact movesKeep_of_eq (by rw [h.2.2])
  · cases hf : tpMoveFind st.tpMove pos with
    | some k =>
      simp [phaseKiller, hdn, hf] at h
      exact killerGo_keep _ _ _ _ _ _ _ _ _ _ _ hrec h
    | none =>
      by_cases hg : useIID = true ∧ 2 < d
      · cases hp : probe st with
        | none => simp [phaseKiller, hdn, hf, hg, hp] at h
        | some p =>
          obtain ⟨r, st2⟩ := p
          simp [phaseKiller, hdn, hf, hg, hp] at h
          exact movesKeep_trans (hprobe _ _ _ hp) (killerGo_keep _ _ _ _ _ _ _ _ _ _ _ hrec h)
      · simp [phaseKiller, hdn, hf, hg] at h
        exact killerGo_keep _ _ _ _ _ _ _ _ _ _ _ hrec h

theorem mainLoop_keep (G : Game) (recur : Nat → Int → SState → Option (Int × SState))
    (gamma : Int) (d pos : Nat) (vlow : Int) (ms : List (Int × Nat))
    (hrec : ∀ p g s r s', recur p g s = some (r, s') → movesKeep s.tpMove s'.tpMove) :
    ∀ best st b' st', mainLoop G recur gamma d pos vlow ms best st = some (b', st') →
      movesKeep st.tpMove st'.tpMove := by
  induction ms with
  | nil =>
    intro best st b' st' h
    simp [mainLoop, Option.some.injEq, Prod.mk.injEq] at h
    exact movesKeep_of_eq (by rw [h.2])
  | cons vm rest ih =>
    intro best st b' st' h
    obtain ⟨v, m⟩ := vm
    by_cases h1 : v < vlow
    · simp [mainLoop, h1, Option.some.injEq, Prod.mk.injEq] at h
      exact movesKeep_of_eq (by rw [h.2])
    · by_cases h2 : d ≤ 1 ∧ G.score pos + v < gamma
      · simp [mainLoop, h1, h2, Option.some.injEq, Prod.mk.injEq] at h
        have h3 := stepCand_keep gamma pos (some m)
          (if v < G.MATE_LOWER then G.score pos + v else G.MATE_UPPER) best st
        rw [h.2] at h3
        exact h3
      · cases hrec' : recur (G.moveApply pos m) (1 - gamma) st with
        | none => simp [mainLoop, h1, h2, hrec'] at h
        | some p =>
          obtain ⟨r, st2⟩ := p
          simp [mainLoop, h1, h2, hrec'] at h
          rcases hsc : stepCand gamma pos (some m) (-r) best st2 with ⟨b1, dn1, st1⟩
          rw [hsc] at h
          have hk1 : movesKeep st.tpMove st1.tpMove := by
            refine movesKeep_trans (hrec _ _ _ _ _ hrec') ?_
            have h3 := stepCand_keep gamma pos (some m) (-r) best st2
            rw [hsc] at h3
            exact h3
          cases dn1 with
          | true =>
            simp only [Option.some.injEq, Prod.mk.injEq] at h
            exact movesKeep_trans hk1 (movesKeep_of_eq (by rw [h.2]))
          | false => exact movesKeep_trans hk1 (ih b1 st1 b' st' h)

theorem boundBody_keep (G : Game) (useIID : Bool)
    (recur : Nat → Int → Int → Bool → SState → Option (Int × SState))
    (pos : Nat) (gamma depth : Int) (canNull : Bool) (st : SState) (r : Int) (st' : SState)
    (hrec : ∀ p g dp c s r2 s', recur p g dp c s = some (r2, s') → movesKeep s.tpMove s'.tpMove)
    (h : boundBody G useIID recur pos gamma depth canNull st = some (r, st')) :
    movesKeep st.tpMove st'.tpMove := by
  unfold boundBody at h
  dsimp only at h
  by_cases hking : G.score pos ≤ -G.MATE_LOWER
  · rw [if_pos hking] at h
    simp only [Option.some.injEq, Prod.mk.injEq] at h
    exact movesKeep_of_eq (by rw [← h.2])
  · rw [if_neg hking] at h
    by_cases hc1 : gamma ≤ (tpScoreGet G { st with nodes := st.nodes + 1 }
        (pos, depth.toNat, canNull)).1.lower
    · rw [if_pos hc1] at h
      simp only [Option.some.injEq, Prod.mk.injEq] at h
      exact movesKeep_of_eq (by rw [← h.2, tpScoreGet_snd_tpMove])
    · rw [if_neg hc1] at h
      by_cases hc2 : (tpScoreGet G { st with nodes := st.nodes + 1 }
          (pos, depth.toNat, canNull)).1.upper < gamma
      · rw [if_pos hc2] at h
        simp only [Option.some.injEq, Prod.mk.injEq] at h
        exact movesKeep_of_eq (by rw [← h.2, tpScoreGet_snd_tpMove])
      · rw [if_neg hc2] at h
        by_cases hc3 : canNull = true ∧ 0 < depth.toNat
            ∧ pos ∈ (tpScoreGet G { st with nodes := st.nodes + 1 }
                (pos, depth.toNat, canNull)).2.histSet
        · rw [if_pos hc3] at h
          simp only [Option.some.injEq, Prod.mk.injEq] at h
          exact movesKeep_of_eq (by rw [← h.2, tpScoreGet_snd_tpMove])
        · rw [if_neg hc3] at h
          have hST2 : movesKeep st.tpMove
              (tpScoreGet G { st with nodes := st.nodes + 1 }
                (pos, depth.toNat, canNull)).2.tpMove :=
            movesKeep_of_eq (by rw [tpScoreGet_snd_tpMove])
          cases hpn : phaseNull G
              (fun p g s => recur p g (Int.ofNat depth.toNat - 3) true s)
              gamma depth.toNat canNull pos (-G.MATE_UPPER) false
              (tpScoreGet G { st with nodes := st.nodes + 1 } (pos, depth.toNat, canNull)).2 with
          | none => rw [hpn] at h; simp at h
          | some t =>
            obtain ⟨b1, dn1, st3⟩ := t
            rw [hpn] at h
            dsimp only at h
            have hk3 : movesKeep st.tpMove st3.tpMove :=
              movesKeep_trans hST2
                (phaseNull_keep _ _ _ _ _ _ _ _ _ _ _ _
                  (fun p g s r2 s' h2 => hrec _ _ _ _ _ _ _ h2) hpn)
            have hk4 : movesKeep st.tpMove
                (phaseStandPat G gamma depth.toNat pos b1 dn1 st3).2.2.tpMove :=
              movesKeep_trans hk3 (phaseStandPat_keep _ _ _ _ _ _ _)
            cases hpk : phaseKiller G useIID
                (fun s => recur pos gamma (Int.ofNat depth.toNat - 3) false s)
                (fun p g s => recur p g (Int.ofNat depth.toNat - 1) true s)
                gamma depth.toNat pos (if depth.toNat = 0 then QS else -G.MATE_LOWER)
                (phaseStandPat G gamma depth.toNat pos b1 dn1 st3).1
                (phaseStandPat G gamma depth.toNat pos b1 dn1 st3).2.1
                (phaseStandPat G gamma depth.toNat pos b1 dn1 st3).2.2 with
            | none => rw [hpk] at h; simp at h
            | some t2 =>
              obtain ⟨b3, dn3, st5⟩ := t2
              rw [hpk] at h
              dsimp only at h
              have hk5 : movesKeep st.tpMove st5.tpMove :=
                movesKeep_trans hk4
                  (phaseKiller_keep _ _ _ _ _ _ _ _ _ _ _ _ _ _
                    (fun s r2 s' h2 => hrec _ _ _ _ _ _ _ h2)
                    (fun p g s r2 s' h2 => hrec _ _ _ _ _ _ _ h2) hpk)
              cases hml : (if dn3 = true then some (b3, st5)
                  else mainLoop G (fun p g s => recur p g (Int.ofNat depth.toNat - 1) true s)
                    gamma depth.toNat pos (if depth.toNat = 0 then QS else -G.MATE_LOWER)
                    (movesSorted G pos) b3 st5) with
              | none => rw [hml] at h; simp at h
              | some q =>
                obtain ⟨best0, st6⟩ := q
                rw [hml] at h
                dsimp only at h
                have hk6 : movesKeep st.tpMove st6.tpMove := by
                  cases dn3 with
                  | true =>
                    rw [if_pos rfl] at hml
                    simp only [Option.some.injEq, Prod.mk.injEq] at hml
                    exact movesKeep_trans hk5 (movesKeep_of_eq (by rw [hml.2]))
                  | false =>
                    rw [if_neg (by simp)] at hml
                    exact movesKeep_trans hk5
                      (mainLoop_keep _ _ _ _ _ _ _
                        (fun p g s r2 s' h2 => hrec _ _ _ _ _ _ _ h2) _ _ _ _ hml)
                cases hcd : (if 0 < depth.toNat ∧ best0 = -G.MATE_UPPER then
                    match recur (G.rotateNull pos) G.MATE_UPPER 0 true st6 with
                    | none => none
                    | some (rc, st7) =>
                      some ((if rc = G.MATE_UPPER then -G.MATE_LOWER else (0 : Int)), st7)
                  else some (best0, st6)) with
                | none => rw [hcd] at h; simp at h
                | some q2 =>
                  obtain ⟨best, st8⟩ := q2
                  rw [hcd] at h
                  dsimp only at h
                  have hk8 : movesKeep st.tpMove st8.tpMove := by
                    by_cases hcond : 0 < depth.toNat ∧ best0 = -G.MATE_UPPER
                    · rw [if_pos hcond] at hcd
                      cases hrc : recur (G.rotateNull pos) G.MATE_UPPER 0 true st6 with
                      | none => rw [hrc] at hcd; simp at hcd
                      | some p =>
                        obtain ⟨rc, st7⟩ := p
                        rw [hrc] at hcd
                        simp only [Option.some.injEq, Prod.mk.injEq] at hcd
                        exact movesKeep_trans hk6
                          (movesKeep_trans (hrec _ _ _ _ _ _ _ hrc)
                            (movesKeep_of_eq (by rw [hcd.2])))
                    · rw [if_neg hcond] at hcd
                      simp only [Option.some.injEq, Prod.mk.injEq] at hcd
                      exact movesKeep_trans hk6 (movesKeep_of_eq (by rw [hcd.2]))
                  simp only [Option.some.injEq, Prod.mk.injEq] at h
                  refine movesKeep_trans hk8 (movesKeep_of_eq ?_)
                  rw [← h.2, tableUpdate_tpMove]

theorem boundAux_keep (G : Game) : ∀ (fuel : Nat) (u : Bool) (pos : Nat) (gamma depth : Int)
    (canNull : Bool) (st : SState) (r : Int) (st' : SState),
    boundAux G fuel u pos gamma depth canNull st = some (r, st') →
      movesKeep st.tpMove st'.tpMove := by
  intro fuel
  induction fuel with
  | zero => intro u pos gamma depth canNull st r st' h; simp [boundAux] at h
  | succ n ih =>
    intro u pos gamma depth canNull st r st' h
    exact boundBody_keep G u _ pos gamma depth canNull st r st'
      (fun p g dp c s r2 s' h2 => ih true p g dp c s r2 s' h2) h

/-! ## Claim C7 -/

theorem phaseKiller_flag (G : Game) (probe : SState → Option (Int × SState))
    (recur : Nat → Int → SState → Option (Int × SState))
    (gamma : Int) (d pos : Nat) (vlow best : Int) (done : Bool) (st : SState)
    (h : (tpMoveFind st.tpMove pos).isSome = true ∨ d ≤ 2) :
    phaseKiller G true probe recur gamma d pos vlow best done st
      = phaseKiller G false probe recur gamma d pos vlow best done st := by
  unfold phaseKiller
  by_cases hdn : done = true
  · rw [if_pos hdn, if_pos hdn]
  · rw [if_neg hdn, if_neg hdn]
    cases hf : tpMoveFind st.tpMove pos with
    | some k => rfl
    | none =>
      rcases h with h1 | h2
      · rw [hf] at h1
        simp at h1
      · rw [if_neg (show ¬(true = true ∧ 2 < d) from fun hc => absurd hc.2 (by omega)),
          if_neg (show ¬(false = true ∧ 2 < d) from fun hc => absurd hc.1 (by decide))]

theorem boundAux_flag (G : Game) (fuel : Nat) (pos : Nat) (gamma depth : Int)
    (canNull : Bool) (st : SState)
    (h : (tpMoveFind st.tpMove pos).isSome = true ∨ depth.toNat ≤ 2) :
    boundAux G fuel true pos gamma depth canNull st
      = boundAux G fuel false pos gamma depth canNull st := by
  cases fuel with
  | zero => rfl
  | succ n =>
    unfold boundAux boundBody
    dsimp only
    by_cases hking : G.score pos ≤ -G.MATE_LOWER
    · rw [if_pos hking, if_pos hking]
    · rw [if_neg hking, if_neg hking]
      by_cases hc1 : gamma ≤ (tpScoreGet G { st with nodes := st.nodes + 1 }
          (pos, depth.toNat, canNull)).1.lower
      · rw [if_pos hc1, if_pos hc1]
      · rw [if_neg hc1, if_neg hc1]
        by_cases hc2 : (tpScoreGet G { st with nodes := st.nodes + 1 }
            (pos, depth.toNat, canNull)).1.upper < gamma
        · rw [if_pos hc2, if_pos hc2]
        · rw [if_neg hc2, if_neg hc2]
          by_cases hc3 : canNull = true ∧ 0 < depth.toNat
              ∧ pos ∈ (tpScoreGet G { st with nodes := st.nodes + 1 }
                  (pos, depth.toNat, canNull)).2.histSet
          · rw [if_pos hc3, if_pos hc3]
          · rw [if_neg hc3, if_neg hc3]
            cases hpn : phaseNull G
                (fun p g s => boundAux G n true p g (Int.ofNat depth.toNat - 3) true s)
                gamma depth.toNat canNull pos (-G.MATE_UPPER) false
                (tpScoreGet G { st with nodes := st.nodes + 1 } (pos, depth.toNat, canNull)).2 with
            | none => rfl
            | some t =>
              obtain ⟨b1, dn1, st3⟩ := t
              dsimp only
              have hflag : (tpMoveFind
                    (phaseStandPat G gamma depth.toNat pos b1 dn1 st3).2.2.tpMove pos).isSome
                      = true
                  ∨ depth.toNat ≤ 2 := by
                rcases h with h1 | h2
                · left
                  have hST2 : movesKeep st.tpMove
                      (tpScoreGet G { st with nodes := st.nodes + 1 }
                        (pos, depth.toNat, canNull)).2.tpMove :=
                    movesKeep_of_eq (by rw [tpScoreGet_snd_tpMove])
                  have hk3 : movesKeep st.tpMove st3.tpMove :=
                    movesKeep_trans hST2
                      (phaseNull_keep _ _ _ _ _ _ _ _ _ _ _ _
                        (fun p g s r2 s' h2 => boundAux_keep G n true p g _ true s r2 s' h2) hpn)
                  have hk4 : movesKeep st.tpMove
                      (phaseStandPat G gamma depth.toNat pos b1 dn1 st3).2.2.tpMove :=
                    movesKeep_trans hk3 (phaseStandPat_keep _ _ _ _ _ _ _)
                  exact hk4 pos h1
                · right
                  exact h2
              rw [phaseKiller_flag G _ _ gamma depth.toNat pos _ _ _ _ hflag]

/-- C7, counterexample: running bound on gameC7 at depth 3, gamma 35 from a
fresh state returns 200, while running it with the top call's
internal-iterative-deepening probe replaced by a no-op returns 100: the
probe caches a different killer move (the king capture), which changes the
fail-soft value the enclosing call returns. -/
theorem C7_counterexample :
    (bound gameC7 9 0 35 3 true initState).map Prod.fst = some 200
      ∧ (boundNoIID gameC7 9 0 35 3 true initState).map Prod.fst = some 100
      ∧ ((200 : Int) ≠ 100) := by decide

/-- C7 as amended: the reduced-depth probe is executed only when no cached
killer move exists and depth > 2; whenever the move cache already holds a
killer for pos, or depth <= 2 (clamped), the probe is not executed and the
call returns exactly what the probe-as-no-op variant returns.  When the
probe does execute it can change the returned value (see the
counterexample): it changes which fail-soft bound the call finds, not only
search efficiency. -/
theorem C7_no_probe_no_change (G : Game) (fuel pos : Nat) (gamma depth : Int)
    (canNull : Bool) (st : SState)
    (h : (tpMoveFind st.tpMove pos).isSome = true ∨ depth.toNat ≤ 2) :
    bound G fuel pos gamma depth canNull st = boundNoIID G fuel pos gamma depth canNull st :=
  boundAux_flag G fuel pos gamma depth canNull st h

theorem C7_witness :
    ((tpMoveFind staleState.tpMove 0).isSome = true ∨ (3 : Int).toNat ≤ 2)
      ∧ bound gameC7 9 0 35 3 true staleState = boundNoIID gameC7 9 0 35 3 true staleState :=
  ⟨by decide, C7_no_probe_no_change gameC7 9 0 35 3 true staleState (by decide)⟩

/-! ## Claims C6 and C10: the driver's binary search -/

theorem fdiv_mid_bounds {a b : Int} (h : a < b) :
    a < Int.fdiv (a + b + 1) 2 ∧ Int.fdiv (a + b + 1) 2 ≤ b := by
  rw [Int.fdiv_eq_ediv _ (by omega)]
  omega

theorem chain'_imp_mem {α : Type} {R S : α → α → Prop} :
    ∀ l : List α, List.Chain' R l → (∀ a b, a ∈ l → b ∈ l → R a b → S a b) →
      List.Chain' S l := by
  intro l
  induction l with
  | nil => intro _ _; exact List.chain'_nil
  | cons a t ih =>
    intro hc himp
    rw [List.chain'_cons'] at hc ⊢
    refine ⟨?_, ih hc.2 (fun x y hx hy => himp x y (List.mem_cons_of_mem a hx)
      (List.mem_cons_of_mem a hy))⟩
    intro b hb
    refine himp a b (List.mem_cons_self a t) ?_ (hc.1 b hb)
    cases t with
    | nil => simp at hb
    | cons c t' =>
      simp only [List.head?] at hb
      injection hb with hb
      rw [← hb]
      exact List.mem_cons_of_mem a (List.mem_cons_self c t')

theorem mem_of_head? {α : Type} {l : List α} {a : α} (h : l.head? = some a) : a ∈ l := by
  cases l with
  | nil => simp at h
  | cons b t =>
    simp only [List.head?] at h
    injection h with h
    rw [← h]
    exact List.mem_cons_self b t

theorem innerLoop_spec (G : Game) (bfuel root depth : Nat) :
    ∀ (n : Nat) (l u g : Int) (st : SState) (lf uf gf : Int) (stf : SState) (prs : List Probe),
    innerLoop G bfuel root depth n l u g st = some (lf, uf, gf, stf, prs) →
      innerLoopInv depth l u g lf uf gf prs := by
  intro n
  induction n with
  | zero =>
    intro l u g st lf uf gf stf prs h
    simp [innerLoop] at h
  | succ m ih =>
    intro l u g st lf uf gf stf prs h
    by_cases hguard : l < u - EVAL_ROUGHNESS
    · cases hb : bound G bfuel root g (Int.ofNat depth) false st with
      | none =>
        simp only [innerLoop] at h
        rw [if_pos hguard, hb] at h
        simp at h
      | some p =>
        obtain ⟨score, st1⟩ := p
        cases hrec2 : innerLoop G bfuel root depth m
            (if g ≤ score then score else l) (if score < g then score else u)
            (Int.fdiv ((if g ≤ score then score else l) + (if score < g then score else u) + 1) 2)
            st1 with
        | none =>
          simp only [innerLoop] at h
          rw [if_pos hguard, hb] at h
          dsimp only at h
          rw [hrec2] at h
          simp at h
        | some q =>
          obtain ⟨l2, u2, g2, st2, prs2⟩ := q
          simp only [innerLoop] at h
          rw [if_pos hguard, hb] at h
          dsimp only at h
          rw [hrec2] at h
          simp only [Option.some.injEq, Prod.mk.injEq] at h
          obtain ⟨h1, h2, h3, h4, h5⟩ := h
          subst h1
          subst h2
          subst h3
          subst h4
          subst h5
          obtain ⟨s2empty, s2head, s2last, s2mem, s2final, s2chain⟩ :=
            ih _ _ _ st1 _ _ _ _ _ hrec2
          refine ⟨fun he => absurd he (by simp), ?_, ?_, ?_, s2final, ?_⟩
          · intro pr hpr
            simp only [List.head?, Option.mem_def, Option.some.injEq] at hpr
            rw [← hpr]
            exact ⟨rfl, rfl, rfl⟩
          · intro pr hpr
            cases hp2 : prs2 with
            | nil =>
              subst hp2
              simp only [List.getLast?_singleton, Option.mem_def, Option.some.injEq] at hpr
              obtain ⟨e1, e2, e3⟩ := s2empty rfl
              rw [← hpr]
              refine ⟨by rw [← e1], by rw [← e2], ?_⟩
              rw [e3, e1, e2]
            | cons b t =>
              subst hp2
              rw [List.getLast?_cons_cons] at hpr
              exact s2last pr hpr
          · intro pr hpr
            rcases List.mem_cons.mp hpr with hpr | hpr
            · rw [hpr]
              exact ⟨rfl, show EVAL_ROUGHNESS < u - l by omega, rfl, rfl⟩
            · exact s2mem pr hpr
          · rw [List.chain'_cons']
            refine ⟨?_, s2chain⟩
            intro b hb
            obtain ⟨hbg, hbl, hbu⟩ := s2head b hb
            have hbmem := mem_of_head? hb
            obtain ⟨-, hbgap, hbla, hbua⟩ := s2mem b hbmem
            have hER : (0 : Int) ≤ EVAL_ROUGHNESS := by decide
            have hgam : b.lowerBefore < b.gamma ∧ b.gamma ≤ b.upperBefore := by
              have h9 := fdiv_mid_bounds
                (show (if g ≤ score then score else l) < (if score < g then score else u) by
                  rw [← hbl, ← hbu]
                  omega)
              rw [hbg, hbl, hbu]
              exact h9
            refine ⟨by rw [hbl], by rw [hbu], by rw [hbg], ?_, ?_⟩
            · rw [hbla]
              by_cases hsc : b.gamma ≤ b.score
              · rw [if_pos hsc]
                omega
              · rw [if_neg hsc]
            · rw [hbua]
              by_cases hsc : b.score < b.gamma
              · rw [if_pos hsc]
                omega
              · rw [if_neg hsc]
    · simp only [innerLoop] at h
      rw [if_neg hguard] at h
      simp only [Option.some.injEq, Prod.mk.injEq] at h
      obtain ⟨h1, h2, h3, h4, h5⟩ := h
      subst h1
      subst h2
      subst h3
      subst h4
      subst h5
      exact ⟨fun _ => ⟨rfl, rfl, rfl⟩, by simp, by simp, by simp, by omega, List.chain'_nil⟩

/-- C6 as amended: within one depth iteration of the driver, every probe
runs only while upper - lower > EVAL_ROUGHNESS and the loop exits exactly
once upper - lower <= EVAL_ROUGHNESS; each probe moves exactly the side of
the window its score falls on; after every probe gamma is recomputed as
(lower + upper + 1) floor-divided by 2; and from the second probe of the
depth onward lower is non-decreasing and upper is non-increasing.  The
conjunct lower <= upper of the original claim can fail, and the very first
probe (whose gamma is carried over from the previous depth) can move a
window side beyond the other (see the counterexample). -/
theorem C6_inner_loop_window (G : Game) (bfuel root depth n : Nat) (l u g : Int)
    (st : SState) (lf uf gf : Int) (stf : SState) (prs : List Probe)
    (hsucc : innerLoop G bfuel root depth n l u g st = some (lf, uf, gf, stf, prs)) :
    innerLoopInv depth l u g lf uf gf prs :=
  innerLoop_spec G bfuel root depth n l u g st lf uf gf stf prs hsucc

/-- C6, counterexample: on gameC6 (root already lost) the depth-1 loop's
single probe at gamma = 0 returns -MATE_UPPER = -200 and sets
upper := -200 while lower stays -100: within one depth iteration
lower <= upper is violated. -/
theorem C6_counterexample :
    c6run = some (-100, -200) ∧ ¬ ((-100 : Int) ≤ -200) := by decide

theorem C6_witness :
    innerLoopInv 1 (-100) 100 0 (-100) (-200) (-150)
      [⟨1, -100, 100, 0, -200, -100, -200, none⟩] :=
  C6_inner_loop_window gameC6 3 0 1 3 (-100) 100 0 initState (-100) (-200) (-150)
    ⟨[], [], [], 1⟩ [⟨1, -100, 100, 0, -200, -100, -200, none⟩] (by decide)

theorem mem_of_getLast' {α : Type} : ∀ (l : List α) (a : α), l.getLast? = some a → a ∈ l := by
  intro l
  induction l with
  | nil => intro a h; simp at h
  | cons b t ih =>
    intro a h
    cases t with
    | nil =>
      rw [List.getLast?_singleton] at h
      injection h with h
      rw [h]
      exact List.mem_cons_self a []
    | cons c t' =>
      rw [List.getLast?_cons_cons] at h
      exact List.mem_cons_of_mem b (ih a h)

theorem depthLoop_chain (G : Game) (bfuel ifuel root : Nat)
    (hML : EVAL_ROUGHNESS < 2 * G.MATE_LOWER) :
    ∀ (nd depth : Nat) (g : Int) (st : SState) (gf : Int) (stf : SState) (prs : List Probe),
    depthLoop G bfuel ifuel root nd depth g st = some (gf, stf, prs) →
      (∀ pr ∈ prs.head?, pr.gamma = g ∧ pr.lowerBefore = -G.MATE_LOWER
          ∧ pr.upperBefore = G.MATE_LOWER ∧ pr.depth = depth)
        ∧ List.Chain' (stepRel G) prs := by
  intro nd
  induction nd with
  | zero =>
    intro depth g st gf stf prs h
    simp only [depthLoop, Option.some.injEq, Prod.mk.injEq] at h
    obtain ⟨-, -, h3⟩ := h
    rw [← h3]
    exact ⟨by simp, List.chain'_nil⟩
  | succ m ih =>
    intro depth g st gf stf prs h
    cases hil : innerLoop G bfuel root depth ifuel (-G.MATE_LOWER) G.MATE_LOWER g st with
    | none =>
      simp only [depthLoop] at h
      rw [hil] at h
      simp at h
    | some q =>
      obtain ⟨l1, u1, g1, st1, prs1⟩ := q
      cases hdl : depthLoop G bfuel ifuel root m (depth + 1) g1 st1 with
      | none =>
        simp only [depthLoop] at h
        rw [hil] at h
        dsimp only at h
        rw [hdl] at h
        simp at h
      | some q2 =>
        obtain ⟨g2, st2, prs2⟩ := q2
        simp only [depthLoop] at h
        rw [hil] at h
        dsimp only at h
        rw [hdl] at h
        simp only [Option.some.injEq, Prod.mk.injEq] at h
        obtain ⟨h1, h2, h3⟩ := h
        subst h1
        subst h2
        subst h3
        obtain ⟨s1empty, s1head, s1last, s1mem, s1final, s1chain⟩ :=
          innerLoop_spec G bfuel root depth ifuel _ _ _ _ _ _ _ _ _ hil
        obtain ⟨ihhead, ihchain⟩ := ih (depth + 1) g1 st1 g2 st2 prs2 hdl
        have hne : prs1 ≠ [] := by
          intro he
          obtain ⟨e1, e2, -⟩ := s1empty he
          omega
        have chain1 : List.Chain' (stepRel G) prs1 :=
          chain'_imp_mem prs1 s1chain (fun a b ha hb hr =>
            ⟨hr.2.2.1, Or.inl ⟨by rw [(s1mem b hb).1, (s1mem a ha).1], hr.1, hr.2.1⟩⟩)
        constructor
        · intro pr hpr
          cases hp1 : prs1 with
          | nil => exact absurd hp1 hne
          | cons a t =>
            subst hp1
            simp only [List.cons_append, List.head?, Option.mem_def, Option.some.injEq] at hpr
            rw [← hpr]
            obtain ⟨w1, w2, w3⟩ := s1head a (by simp [List.head?])
            exact ⟨w1, w2, w3, (s1mem a (List.mem_cons_self a t)).1⟩
        · refine List.chain'_append.mpr ⟨chain1, ihchain, ?_⟩
          intro x hx y hy
          obtain ⟨hx1, hx2, hx3⟩ := s1last x hx
          obtain ⟨hy1, hy2, hy3, hy4⟩ := ihhead y hy
          have hxmem : x ∈ prs1 := mem_of_getLast' prs1 x hx
          refine ⟨?_, Or.inr ⟨?_, hy2, hy3⟩⟩
          · rw [hy1, hx3, hx1, hx2]
          · rw [hy4, (s1mem x hxmem).1]

/-- C10: gamma is initialised to 0 once per search call and never reset
when the driver advances to the next depth: the very first probe uses
gamma = 0 with the window initialised to [-MATE_LOWER, MATE_LOWER], and
every later probe's gamma equals (lowerAfter + upperAfter + 1)
floor-divided by 2 computed from the immediately preceding probe — in
particular the first probe of depth d > 1 uses the midpoint of the final
window of depth d-1 — while at each depth boundary lower and upper are
re-initialised to -MATE_LOWER and MATE_LOWER. -/
theorem C10_gamma_carry (G : Game) (bfuel ifuel nd : Nat) (history : List Nat) (st : SState)
    (gf : Int) (stf : SState) (prs : List Probe)
    (hML : EVAL_ROUGHNESS < 2 * G.MATE_LOWER)
    (hsucc : search G bfuel ifuel nd history st = some (gf, stf, prs)) :
    (∀ pr ∈ prs.head?, pr.gamma = 0 ∧ pr.lowerBefore = -G.MATE_LOWER
        ∧ pr.upperBefore = G.MATE_LOWER ∧ pr.depth = 1)
      ∧ List.Chain' (stepRel G) prs :=
  depthLoop_chain G bfuel ifuel (history.getLastD 0) hML nd 1 0 (searchInit history st)
    gf stf prs hsucc

theorem C10_witness :
    (∀ pr ∈ ([⟨1, -100, 100, 0, -200, -100, -200, none⟩,
        ⟨2, -100, 100, -150, -200, -100, -200, none⟩] : List Probe).head?,
        pr.gamma = 0 ∧ pr.lowerBefore = -gameC6.MATE_LOWER
          ∧ pr.upperBefore = gameC6.MATE_LOWER ∧ pr.depth = 1)
      ∧ List.Chain' (stepRel gameC6)
          [⟨1, -100, 100, 0, -200, -100, -200, none⟩,
           ⟨2, -100, 100, -150, -200, -100, -200, none⟩] :=
  C10_gamma_carry gameC6 3 3 2 [0] initState (-150) ⟨[], [], [0], 2⟩
    [⟨1, -100, 100, 0, -200, -100, -200, none⟩,
     ⟨2, -100, 100, -150, -200, -100, -200, none⟩] (by decide) (by decide)

/-! ## Claim C9: more fuel never changes a result that was already reached -/

theorem killerGo_mono (G : Game) (r r' : Nat → Int → SState → Option (Int × SState))
    (hr : ∀ p g s x, r p g s = some x → r' p g s = some x)
    (gamma : Int) (pos : Nat) (vlow : Int) (ko : Option Nat) (best : Int) (st : SState)
    (x : Int × Bool × SState)
    (h : killerGo G r gamma pos vlow ko best st = some x) :
    killerGo G r' gamma pos vlow ko best st = some x := by
  cases ko with
  | none => simpa [killerGo] using h
  | some k =>
    by_cases hv : vlow ≤ G.value pos k
    · cases hrec : r (G.moveApply pos k) (1 - gamma) st with
      | none => simp [killerGo, hv, hrec] at h
      | some p =>
        obtain ⟨rv, s2⟩ := p
        simp only [killerGo] at h ⊢
        rw [if_pos hv] at h ⊢
        rw [hrec] at h
        rw [hr _ _ _ _ hrec]
        exact h
    · simpa [killerGo, hv] using h

theorem phaseNull_mono (G : Game) (r r' : Nat → Int → SState → Option (Int × SState))
    (hr : ∀ p g s x, r p g s = some x → r' p g s = some x)
    (gamma : Int) (d : Nat) (canNull : Bool) (pos : Nat) (best : Int) (done : Bool)
    (st : SState) (x : Int × Bool × SState)
    (h : phaseNull G r gamma d canNull pos best done st = some x) :
    phaseNull G r' gamma d canNull pos best done st = some x := by
  by_cases hdn : done = true
  · simpa [phaseNull, hdn] using h
  · by_cases hg : 2 < d ∧ canNull = true ∧ G.hasMajor pos = true
    · cases hrec : r (G.rotateNull pos) (1 - gamma) st with
      | none => simp [phaseNull, hdn, hg, hrec] at h
      | some p =>
        obtain ⟨rv, s2⟩ := p
        simp only [phaseNull] at h ⊢
        rw [if_neg hdn, if_pos hg] at h ⊢
        rw [hrec] at h
        rw [hr _ _ _ _ hrec]
        exact h
    · simpa [phaseNull, hdn, hg] using h

theorem phaseKiller_mono (G : Game) (useIID : Bool)
    (pb pb' : SState → Option (Int × SState))
    (r r' : Nat → Int → SState → Option (Int × SState))
    (hpb : ∀ s x, pb s = some x → pb' s = some x)
    (hr : ∀ p g s x, r p g s = some x → r' p g s = some x)
    (gamma : Int) (d pos : Nat) (vlow best : Int) (done : Bool) (st : SState)
    (x : Int × Bool × SState)
    (h : phaseKiller G useIID pb r gamma d pos vlow best done st = some x) :
    phaseKiller G useIID pb' r' gamma d pos vlow best done st = some x := by
  by_cases hdn : done = true
  · simpa [phaseKiller, hdn] using h
  · cases hf : tpMoveFind st.tpMove pos with
    | some k =>
      simp only [phaseKiller] at h ⊢
      rw [if_neg hdn, hf] at h ⊢
      exact killerGo_mono G r r' hr _ _ _ _ _ _ _ h
    | none =>
      by_cases hg : useIID = true ∧ 2 < d
      · cases hp : pb st with
        | none => simp [phaseKiller, hdn, hf, hg, hp] at h
        | some p =>
          obtain ⟨rv, s2⟩ := p
          simp only [phaseKiller] at h ⊢
          rw [if_neg hdn, hf, if_pos hg] at h ⊢
          rw [hp] at h
          rw [hpb _ _ hp]
          exact killerGo_mono G r r' hr _ _ _ _ _ _ _ h
      · simp only [phaseKiller] at h ⊢
        rw [if_neg hdn, hf, if_neg hg] at h ⊢
        exact killerGo_mono G r r' hr _ _ _ _ _ _ _ h

theorem mainLoop_mono (G : Game) (r r' : Nat → Int → SState → Option (Int × SState))
    (hr : ∀ p g s x, r p g s = some x → r' p g s = some x)
    (gamma : Int) (d pos : Nat) (vlow : Int) :
    ∀ (ms : List (Int × Nat)) (best : Int) (st : SState) (x : Int × SState),
    mainLoop G r gamma d pos vlow ms best st = some x →
      mainLoop G r' gamma d pos vlow ms best st = some x := by
  intro ms
  induction ms with
  | nil => intro best st x h; simpa [mainLoop] using h
  | cons vm rest ih =>
    intro best st x h
    obtain ⟨v, m⟩ := vm
    by_cases h1 : v < vlow
    · simpa [mainLoop, h1] using h
    · by_cases h2 : d ≤ 1 ∧ G.score pos + v < gamma
      · simpa [mainLoop, h1, h2] using h
      · cases hrec : r (G.moveApply pos m) (1 - gamma) st with
        | none => simp [mainLoop, h1, h2, hrec] at h
        | some p =>
          obtain ⟨rv, s2⟩ := p
          simp only [mainLoop] at h ⊢
          rw [if_neg h1, if_neg h2] at h ⊢
          rw [hrec] at h
          rw [hr _ _ _ _ hrec]
          dsimp only at h ⊢
          rcases hsc : stepCand gamma pos (some m) (-rv) best s2 with ⟨b1, dn1, st1⟩
          rw [hsc] at h
          cases dn1 with
          | true => exact h
          | false => exact ih b1 st1 x h

theorem boundBody_mono (G : Game) (useIID : Bool)
    (r r' : Nat → Int → Int → Bool → SState → Option (Int × SState))
    (hr : ∀ p g dp c s x, r p g dp c s = some x → r' p g dp c s = some x)
    (pos : Nat) (gamma depth : Int) (canNull : Bool) (st : SState) (x : Int × SState)
    (h : boundBody G useIID r pos gamma depth canNull st = some x) :
    boundBody G useIID r' pos gamma depth canNull st = some x := by
  unfold boundBody at h ⊢
  dsimp only at h ⊢
  by_cases hking : G.score pos ≤ -G.MATE_LOWER
  · rw [if_pos hking] at h ⊢
    exact h
  · rw [if_neg hking] at h ⊢
    by_cases hc1 : gamma ≤ (tpScoreGet G { st with nodes := st.nodes + 1 }
        (pos, depth.toNat, canNull)).1.lower
    · rw [if_pos hc1] at h ⊢
      exact h
    · rw [if_neg hc1] at h ⊢
      by_cases hc2 : (tpScoreGet G { st with nodes := st.nodes + 1 }
          (pos, depth.toNat, canNull)).1.upper < gamma
      · rw [if_pos hc2] at h ⊢
        exact h
      · rw [if_neg hc2] at h ⊢
        by_cases hc3 : canNull = true ∧ 0 < depth.toNat
            ∧ pos ∈ (tpScoreGet G { st with nodes := st.nodes + 1 }
                (pos, depth.toNat, canNull)).2.histSet
        · rw [if_pos hc3] at h ⊢
          exact h
        · rw [if_neg hc3] at h ⊢
          cases hpn : phaseNull G
              (fun p g s => r p g (Int.ofNat depth.toNat - 3) true s)
              gamma depth.toNat canNull pos (-G.MATE_UPPER) false
              (tpScoreGet G { st with nodes := st.nodes + 1 } (pos, depth.toNat, canNull)).2 with
          | none => rw [hpn] at h; simp at h
          | some t =>
            obtain ⟨b1, dn1, st3⟩ := t
            rw [hpn] at h
            rw [phaseNull_mono G _ _ (fun p g s y hy => hr _ _ _ _ _ _ hy) _ _ _ _ _ _ _ _ hpn]
            dsimp only at h ⊢
            cases hpk : phaseKiller G useIID
                (fun s => r pos gamma (Int.ofNat depth.toNat - 3) false s)
                (fun p g s => r p g (Int.ofNat depth.toNat - 1) true s)
                gamma depth.toNat pos (if depth.toNat = 0 then QS else -G.MATE_LOWER)
                (phaseStandPat G gamma depth.toNat pos b1 dn1 st3).1
                (phaseStandPat G gamma depth.toNat pos b1 dn1 st3).2.1
                (phaseStandPat G gamma depth.toNat pos b1 dn1 st3).2.2 with
            | none => rw [hpk] at h; simp at h
            | some t2 =>
              obtain ⟨b3, dn3, st5⟩ := t2
              rw [hpk] at h
              rw [phaseKiller_mono G useIID _ _ _ _ (fun s y hy => hr _ _ _ _ _ _ hy)
                (fun p g s y hy => hr _ _ _ _ _ _ hy) _ _ _ _ _ _ _ _ hpk]
              dsimp only at h ⊢
              cases hml : (if dn3 = true then some (b3, st5)
                  else mainLoop G (fun p g s => r p g (Int.ofNat depth.toNat - 1) true s)
                    gamma depth.toNat pos (if depth.toNat = 0 then QS else -G.MATE_LOWER)
                    (movesSorted G pos) b3 st5) with
              | none => rw [hml] at h; simp at h
              | some q =>
                obtain ⟨best0, st6⟩ := q
                rw [hml] at h
                have hml' : (if dn3 = true then some (b3, st5)
                    else mainLoop G (fun p g s => r' p g (Int.ofNat depth.toNat - 1) true s)
                      gamma depth.toNat pos (if depth.toNat = 0 then QS else -G.MATE_LOWER)
                      (movesSorted G pos) b3 st5) = some (best0, st6) := by
                  cases dn3 with
                  | true => exact hml
                  | false =>
                    rw [if_neg (by simp)] at hml ⊢
                    exact mainLoop_mono G _ _ (fun p g s y hy => hr _ _ _ _ _ _ hy)
                      _ _ _ _ _ _ _ _ hml
                rw [hml']
                dsimp only at h ⊢
                by_cases hcond : 0 < depth.toNat ∧ best0 = -G.MATE_UPPER
                · rw [if_pos hcond] at h ⊢
                  cases hrc : r (G.rotateNull pos) G.MATE_UPPER 0 true st6 with
                  | none => rw [hrc] at h; simp at h
                  | some p =>
                    obtain ⟨rc, st7⟩ := p
                    rw [hrc] at h
                    rw [hr _ _ _ _ _ _ hrc]
                    exact h
                · rw [if_neg hcond] at h ⊢
                  exact h

theorem boundAux_mono (G : Game) :
    ∀ (fuel fuel' : Nat), fuel ≤ fuel' →
    ∀ (u : Bool) (pos : Nat) (gamma depth : Int) (canNull : Bool) (st : SState)
      (x : Int × SState),
    boundAux G fuel u pos gamma depth canNull st = some x →
      boundAux G fuel' u pos gamma depth canNull st = some x := by
  intro fuel
  induction fuel with
  | zero => intro fuel' _ u pos gamma depth canNull st x h; simp [boundAux] at h
  | succ n ih =>
    intro fuel' hle u pos gamma depth canNull st x h
    cases fuel' with
    | zero => omega
    | succ n' =>
      have hn : n ≤ n' := by omega
      unfold boundAux at h ⊢
      exact boundBody_mono G u _ _
        (fun p g dp c s y hy => ih n' hn true p g dp c s y hy) pos gamma depth canNull st x h

theorem mem_insertDesc {a b : Int × Nat} : ∀ l, a ∈ insertDesc b l → a = b ∨ a ∈ l := by
  intro l
  induction l with
  | nil =>
    intro h
    simp only [insertDesc] at h
    rcases List.mem_cons.mp h with h | h
    · exact Or.inl h
    · simp at h
  | cons c t ih =>
    intro h
    unfold insertDesc at h
    by_cases hc : c.1 < b.1 ∨ (b.1 = c.1 ∧ c.2 ≤ b.2)
    · rw [if_pos hc] at h
      rcases List.mem_cons.mp h with h | h
      · exact Or.inl h
      · exact Or.inr h
    · rw [if_neg hc] at h
      rcases List.mem_cons.mp h with h | h
      · exact Or.inr (h ▸ List.mem_cons_self c t)
      · rcases ih h with h | h
        · exact Or.inl h
        · exact Or.inr (List.mem_cons_of_mem c h)

theorem mem_sortDesc {a : Int × Nat} : ∀ l, a ∈ sortDesc l → a ∈ l := by
  intro l
  induction l with
  | nil => intro h; simp [sortDesc] at h
  | cons b t ih =>
    intro h
    rcases mem_insertDesc (sortDesc t) h with h | h
    · exact h ▸ List.mem_cons_self b t
    · exact List.mem_cons_of_mem b (ih h)

theorem mem_movesSorted (G : Game) (pos : Nat) (v : Int) (m : Nat)
    (h : (v, m) ∈ movesSorted G pos) : v = G.value pos m := by
  have h2 := mem_sortDesc ((G.genMoves pos).map (fun mv => (G.value pos mv, mv))) h
  simp only [List.mem_map] at h2
  obtain ⟨mv, -, he⟩ := h2
  have h3 : G.value pos mv = v := congrArg Prod.fst he
  have h4 : mv = m := congrArg Prod.snd he
  rw [← h3, h4]

theorem c9_cycle : ∀ (fuel : Nat) (st : SState) (dpA dpB : Int), dpA.toNat = 0 →
    dpB.toNat = 0 → c9ok st →
    boundAux gameC9 fuel true 0 10 dpA true st = none
      ∧ boundAux gameC9 fuel true 1 (-9) dpB true st = none := by
  intro fuel
  induction fuel with
  | zero => intro st dpA dpB _ _ _; exact ⟨rfl, rfl⟩
  | succ n ih =>
    intro st dpA dpB hdpA hdpB hok
    obtain ⟨hA, hB, hm0, hm1⟩ := hok
    constructor
    · have hE : lookupEntry gameC9 st (0, 0, true) = entryDefault gameC9 := by
        rcases hA with h | h <;> simp [lookupEntry, h]
      have hok2 : c9ok (tpScoreGet gameC9 { st with nodes := st.nodes + 1 } (0, 0, true)).2 := by
        unfold tpScoreGet
        rcases hA with h | h
        · rw [show tpScoreFind ({ st with nodes := st.nodes + 1 } : SState).tpScore (0, 0, true)
              = none from h]
          exact ⟨Or.inr (by simp [tpScoreSet, tpScoreFind]),
            by simp [tpScoreSet, tpScoreFind]; exact hB, hm0, hm1⟩
        · rw [show tpScoreFind ({ st with nodes := st.nodes + 1 } : SState).tpScore (0, 0, true)
              = some (entryDefault gameC9) from h]
          exact ⟨Or.inr h, hB, hm0, hm1⟩
      have hmv : tpMoveFind
          (tpScoreGet gameC9 { st with nodes := st.nodes + 1 } (0, 0, true)).2.tpMove 0
            = none := by
        rw [tpScoreGet_snd_tpMove]
        exact hm0
      have hrecB := (ih (tpScoreGet gameC9 { st with nodes := st.nodes + 1 } (0, 0, true)).2
        0 (-1) rfl (by decide) hok2).2
      unfold boundAux boundBody
      dsimp only
      simp only [hdpA]
      rw [if_neg (by decide : ¬ gameC9.score 0 ≤ -gameC9.MATE_LOWER)]
      simp only [tpScoreGet_fst, lookupEntry_nodes, hE]
      rw [if_neg (by decide), if_neg (by decide)]
      rw [if_neg (show ¬(True ∧ 0 < 0 ∧ (0 : Nat) ∈ (tpScoreGet gameC9
          { st with nodes := st.nodes + 1 } (0, 0, true)).2.histSet) from
        fun hc => absurd hc.2.1 (by omega))]
      rw [show phaseNull gameC9 (fun p g s => boundAux gameC9 n true p g (Int.ofNat 0 - 3) true s)
            10 0 true 0 (-gameC9.MATE_UPPER) false
            (tpScoreGet gameC9 { st with nodes := st.nodes + 1 } (0, 0, true)).2
          = some (-gameC9.MATE_UPPER, false,
              (tpScoreGet gameC9 { st with nodes := st.nodes + 1 } (0, 0, true)).2) from by
        unfold phaseNull
        rw [if_neg (by simp), if_neg (fun hc => absurd hc.1 (by omega))]]
      dsimp only
      rw [show phaseStandPat gameC9 10 0 0 (-gameC9.MATE_UPPER) false
            (tpScoreGet gameC9 { st with nodes := st.nodes + 1 } (0, 0, true)).2
          = ((0 : Int), false,
              (tpScoreGet gameC9 { st with nodes := st.nodes + 1 } (0, 0, true)).2) from rfl]
      dsimp only
      simp only [if_true]
      rw [show phaseKiller gameC9 true
            (fun s => boundAux gameC9 n true 0 10 (Int.ofNat 0 - 3) false s)
            (fun p g s => boundAux gameC9 n true p g (Int.ofNat 0 - 1) true s)
            10 0 0 QS 0 false
            (tpScoreGet gameC9 { st with nodes := st.nodes + 1 } (0, 0, true)).2
          = some ((0 : Int), false,
              (tpScoreGet gameC9 { st with nodes := st.nodes + 1 } (0, 0, true)).2) from by
        unfold phaseKiller
        rw [if_neg (by simp), hmv, if_neg (fun hc => absurd hc.2 (by omega))]
        rfl]
      dsimp only
      rw [if_neg (by decide : ¬(false = true))]
      rw [show mainLoop gameC9 (fun p g s => boundAux gameC9 n true p g (Int.ofNat 0 - 1) true s)
            10 0 0 QS (movesSorted gameC9 0) 0
            (tpScoreGet gameC9 { st with nodes := st.nodes + 1 } (0, 0, true)).2
          = none from by
        rw [show movesSorted gameC9 0 = [(40, 30)] from by decide]
        unfold mainLoop
        rw [if_neg (by decide), if_neg (by decide)]
        rw [show boundAux gameC9 n true (gameC9.moveApply 0 30) (1 - 10) (Int.ofNat 0 - 1) true
              (tpScoreGet gameC9 { st with nodes := st.nodes + 1 } (0, 0, true)).2
            = none from hrecB]]
    · have hE : lookupEntry gameC9 st (1, 0, true) = entryDefault gameC9 := by
        rcases hB with h | h <;> simp [lookupEntry, h]
      have hok2 : c9ok (tpScoreGet gameC9 { st with nodes := st.nodes + 1 } (1, 0, true)).2 := by
        unfold tpScoreGet
        rcases hB with h | h
        · rw [show tpScoreFind ({ st with nodes := st.nodes + 1 } : SState).tpScore (1, 0, true)
              = none from h]
          exact ⟨by simp [tpScoreSet, tpScoreFind]; exact hA,
            Or.inr (by simp [tpScoreSet, tpScoreFind]), hm0, hm1⟩
        · rw [show tpScoreFind ({ st with nodes := st.nodes + 1 } : SState).tpScore (1, 0, true)
              = some (entryDefault gameC9) from h]
          exact ⟨hA, Or.inr h, hm0, hm1⟩
      have hmv : tpMoveFind
          (tpScoreGet gameC9 { st with nodes := st.nodes + 1 } (1, 0, true)).2.tpMove 1
            = none := by
        rw [tpScoreGet_snd_tpMove]
        exact hm1
      have hrecA := (ih (tpScoreGet gameC9 { st with nodes := st.nodes + 1 } (1, 0, true)).2
        (-1) 0 (by decide) rfl hok2).1
      unfold boundAux boundBody
      dsimp only
      simp only [hdpB]
      rw [if_neg (by decide : ¬ gameC9.score 1 ≤ -gameC9.MATE_LOWER)]
      simp only [tpScoreGet_fst, lookupEntry_nodes, hE]
      rw [if_neg (by decide), if_neg (by decide)]
      rw [if_neg (show ¬(True ∧ 0 < 0 ∧ (1 : Nat) ∈ (tpScoreGet gameC9
          { st with nodes := st.nodes + 1 } (1, 0, true)).2.histSet) from
        fun hc => absurd hc.2.1 (by omega))]
      rw [show phaseNull gameC9 (fun p g s => boundAux gameC9 n true p g (Int.ofNat 0 - 3) true s)
            (-9) 0 true 1 (-gameC9.MATE_UPPER) false
            (tpScoreGet gameC9 { st with nodes := st.nodes + 1 } (1, 0, true)).2
          = some (-gameC9.MATE_UPPER, false,
              (tpScoreGet gameC9 { st with nodes := st.nodes + 1 } (1, 0, true)).2) from by
        unfold phaseNull
        rw [if_neg (by simp), if_neg (fun hc => absurd hc.1 (by omega))]]
      dsimp only
      rw [show phaseStandPat gameC9 (-9) 0 1 (-gameC9.MATE_UPPER) false
            (tpScoreGet gameC9 { st with nodes := st.nodes + 1 } (1, 0, true)).2
          = ((-20 : Int), false,
              (tpScoreGet gameC9 { st with nodes := st.nodes + 1 } (1, 0, true)).2) from rfl]
      dsimp only
      simp only [if_true]
      rw [show phaseKiller gameC9 true
            (fun s => boundAux gameC9 n true 1 (-9) (Int.ofNat 0 - 3) false s)
            (fun p g s => boundAux gameC9 n true p g (Int.ofNat 0 - 1) true s)
            (-9) 0 1 QS (-20) false
            (tpScoreGet gameC9 { st with nodes := st.nodes + 1 } (1, 0, true)).2
          = some ((-20 : Int), false,
              (tpScoreGet gameC9 { st with nodes := st.nodes + 1 } (1, 0, true)).2) from by
        unfold phaseKiller
        rw [if_neg (by simp), hmv, if_neg (fun hc => absurd hc.2 (by omega))]
        rfl]
      dsimp only
      rw [if_neg (by decide : ¬(false = true))]
      rw [show mainLoop gameC9 (fun p g s => boundAux gameC9 n true p g (Int.ofNat 0 - 1) true s)
            (-9) 0 1 QS (movesSorted gameC9 1)
            (-20) (tpScoreGet gameC9 { st with nodes := st.nodes + 1 } (1, 0, true)).2
          = none from by
        rw [show movesSorted gameC9 1 = [(40, 31)] from by decide]
        unfold mainLoop
        rw [if_neg (by decide), if_neg (by decide)]
        rw [show boundAux gameC9 n true (gameC9.moveApply 1 31) (1 - (-9)) (Int.ofNat 0 - 1) true
              (tpScoreGet gameC9 { st with nodes := st.nodes + 1 } (1, 0, true)).2
            = none from hrecA]]

/-- C9, counterexample: gameC9 is a two-position cycle of moves whose
intrinsic value 40 is at or above QS = 35, with scores 0 and -20, so at
gamma = 10 and depth 0 neither side ever stands pat, no table cutoff or
futility break fires, and quiescence search follows the cycle forever:
bound returns none (fuel exhausted) for every fuel, i.e. the evaluator
does not terminate even though every move list is finite and depth is
finite. -/
theorem C9_counterexample :
    ¬ ∃ fuel : Nat, (bound gameC9 fuel 0 10 0 true initState).isSome = true := by
  rintro ⟨fuel, hf⟩
  rw [show bound gameC9 fuel 0 10 0 true initState = none from
    (c9_cycle fuel initState 0 0 rfl rfl (by unfold c9ok; decide)).1] at hf
  simp at hf

theorem mainLoop_total (G : Game) (gamma : Int) (d pos : Nat) (vlow : Int)
    (recur : Nat → Nat → Int → SState → Option (Int × SState))
    (hmono : ∀ f f' : Nat, f ≤ f' → ∀ p g s x, recur f p g s = some x → recur f' p g s = some x) :
    ∀ ms : List (Int × Nat),
      (∀ v mv, (v, mv) ∈ ms → ¬ v < vlow →
        ∀ g s, ∃ f, (recur f (G.moveApply pos mv) g s).isSome = true) →
      ∀ best st, ∃ f, (mainLoop G (recur f) gamma d pos vlow ms best st).isSome = true := by
  intro ms
  induction ms with
  | nil => intro _ best st; exact ⟨0, by simp [mainLoop]⟩
  | cons vm rest ih =>
    intro hms best st
    obtain ⟨v, m⟩ := vm
    by_cases h1 : v < vlow
    · exact ⟨0, by simp [mainLoop, h1]⟩
    · by_cases h2 : d ≤ 1 ∧ G.score pos + v < gamma
      · exact ⟨0, by simp [mainLoop, h1, h2]⟩
      · obtain ⟨f1, hf1⟩ := hms v m (List.mem_cons_self _ _) h1 (1 - gamma) st
        obtain ⟨p, hx⟩ := Option.isSome_iff_exists.mp hf1
        obtain ⟨rv, s2⟩ := p
        rcases hsc : stepCand gamma pos (some m) (-rv) best s2 with ⟨b1, dn1, st1⟩
        cases dn1 with
        | true =>
          refine ⟨f1, ?_⟩
          simp only [mainLoop]
          rw [if_neg h1, if_neg h2, hx]
          dsimp only
          rw [hsc]
          rfl
        | false =>
          obtain ⟨f2, hf2⟩ := ih
            (fun v' mv' hm hv g s => hms v' mv' (List.mem_cons_of_mem _ hm) hv g s) b1 st1
          refine ⟨max f1 f2, ?_⟩
          have hx' : recur (max f1 f2) (G.moveApply pos m) (1 - gamma) st = some (rv, s2) :=
            hmono f1 _ (le_max_left _ _) _ _ _ _ hx
          obtain ⟨y, hy⟩ := Option.isSome_iff_exists.mp hf2
          have hy' := mainLoop_mono G (recur f2) (recur (max f1 f2))
            (fun p g s x hx2 => hmono f2 _ (le_max_right _ _) _ _ _ _ hx2)
            gamma d pos vlow rest b1 st1 y hy
          simp only [mainLoop]
          rw [if_neg h1, if_neg h2, hx']
          dsimp only
          rw [hsc]
          dsimp only
          rw [hy']
          rfl

theorem int_ofNat_eq (n : Nat) : Int.ofNat n = (n : Int) := rfl

/-- C9 as amended: bound terminates for every finite depth and finite move
lists provided the depth-0 quiescence recursion is additionally
well-founded: given any measure on positions that strictly decreases along
every move whose intrinsic value reaches QS (in chess: captures and
promotions consume material), some finite fuel makes every bound call
return a result.  Without such a measure the quiescence recursion can
cycle at depth 0 and bound fails to terminate (see the counterexample). -/
theorem C9_termination (G : Game) (mu : Nat → Nat)
    (hmu : ∀ p m, QS ≤ G.value p m → mu (G.moveApply p m) < mu p)
    (pos : Nat) (gamma depth : Int) (canNull : Bool) (st : SState) :
    ∃ fuel, (bound G fuel pos gamma depth canNull st).isSome = true := by
  suffices H : ∀ (d m : Nat) (pos : Nat) (g dp : Int) (cn : Bool) (s : SState),
      dp.toNat = d → mu pos = m → ∃ fuel, (boundAux G fuel true pos g dp cn s).isSome = true by
    exact H depth.toNat (mu pos) pos gamma depth canNull st rfl rfl
  intro d
  induction d using Nat.strong_induction_on with
  | _ d ihd =>
  intro m
  induction m using Nat.strong_induction_on with
  | _ m ihm =>
  intro pos g dp cn s hdp hm
  have hcall : ∀ (dp' : Int) (p : Nat) (g' : Int) (c : Bool) (s' : SState),
      (dp'.toNat < d ∨ (dp'.toNat = d ∧ mu p < m)) →
      ∃ f, (boundAux G f true p g' dp' c s').isSome = true := by
    intro dp' p g' c s' h
    rcases h with h | ⟨h1, h2⟩
    · exact ihd dp'.toNat h (mu p) p g' dp' c s' rfl rfl
    · exact ihm (mu p) h2 p g' dp' c s' h1 rfl
  subst hdp
  subst hm
  by_cases hking : G.score pos ≤ -G.MATE_LOWER
  · refine ⟨1, ?_⟩
    unfold boundAux boundBody
    dsimp only
    rw [if_pos hking]
    rfl
  by_cases hc1 : g ≤ (tpScoreGet G { s with nodes := s.nodes + 1 } (pos, dp.toNat, cn)).1.lower
  · refine ⟨1, ?_⟩
    unfold boundAux boundBody
    dsimp only
    rw [if_neg hking, if_pos hc1]
    rfl
  by_cases hc2 : (tpScoreGet G { s with nodes := s.nodes + 1 } (pos, dp.toNat, cn)).1.upper < g
  · refine ⟨1, ?_⟩
    unfold boundAux boundBody
    dsimp only
    rw [if_neg hking, if_neg hc1, if_pos hc2]
    rfl
  by_cases hc3 : cn = true ∧ 0 < dp.toNat
      ∧ pos ∈ (tpScoreGet G { s with nodes := s.nodes + 1 } (pos, dp.toNat, cn)).2.histSet
  · refine ⟨1, ?_⟩
    unfold boundAux boundBody
    dsimp only
    rw [if_neg hking, if_neg hc1, if_neg hc2, if_pos hc3]
    rfl
  have hPN : ∃ (f : Nat) (t : Int × Bool × SState), ∀ f', f ≤ f' →
      phaseNull G (fun p g2 s2 => boundAux G f' true p g2 (Int.ofNat dp.toNat - 3) true s2)
        g dp.toNat cn pos (-G.MATE_UPPER) false
        (tpScoreGet G { s with nodes := s.nodes + 1 } (pos, dp.toNat, cn)).2 = some t := by
    by_cases hg : 2 < dp.toNat ∧ cn = true ∧ G.hasMajor pos = true
    · have hdp3 : 2 < dp.toNat := hg.1
      obtain ⟨fa, hfa⟩ := hcall (Int.ofNat dp.toNat - 3) (G.rotateNull pos) (1 - g) true
        (tpScoreGet G { s with nodes := s.nodes + 1 } (pos, dp.toNat, cn)).2
        (Or.inl (by simp only [int_ofNat_eq]; omega))
      obtain ⟨p, hra⟩ := Option.isSome_iff_exists.mp hfa
      obtain ⟨ra, sa⟩ := p
      refine ⟨fa, stepCand g pos none (-ra) (-G.MATE_UPPER) sa, fun f' hf' => ?_⟩
      unfold phaseNull
      rw [if_neg (by simp), if_pos hg]
      dsimp only
      rw [boundAux_mono G fa f' hf' true _ _ _ _ _ _ hra]
    · refine ⟨0, (-G.MATE_UPPER, false,
        (tpScoreGet G { s with nodes := s.nodes + 1 } (pos, dp.toNat, cn)).2), fun f' _ => ?_⟩
      unfold phaseNull
      rw [if_neg (by simp), if_neg hg]
  obtain ⟨fN, tN, hN⟩ := hPN
  obtain ⟨b1, dn1, st3⟩ := tN
  rcases hSP : phaseStandPat G g dp.toNat pos b1 dn1 st3 with ⟨b2, dn2, st4⟩
  have hPK : ∃ (f : Nat) (t : Int × Bool × SState), ∀ f', f ≤ f' →
      phaseKiller G true (fun s2 => boundAux G f' true pos g (Int.ofNat dp.toNat - 3) false s2)
        (fun p g2 s2 => boundAux G f' true p g2 (Int.ofNat dp.toNat - 1) true s2)
        g dp.toNat pos (if dp.toNat = 0 then QS else -G.MATE_LOWER) b2 dn2 st4 = some t := by
    by_cases hdn : dn2 = true
    · exact ⟨0, (b2, dn2, st4), fun f' _ => by unfold phaseKiller; rw [if_pos hdn]⟩
    · have hkill : ∀ (k : Nat) (s' : SState),
          (if dp.toNat = 0 then QS else -G.MATE_LOWER) ≤ G.value pos k →
          ∃ (f : Nat) (t : Int × Bool × SState), ∀ f', f ≤ f' →
            killerGo G (fun p g2 s2 => boundAux G f' true p g2 (Int.ofNat dp.toNat - 1) true s2)
              g pos (if dp.toNat = 0 then QS else -G.MATE_LOWER) (some k) b2 s' = some t := by
        intro k s' hv
        have hlex : (Int.ofNat dp.toNat - 1).toNat < dp.toNat
            ∨ ((Int.ofNat dp.toNat - 1).toNat = dp.toNat ∧ mu (G.moveApply pos k) < mu pos) := by
          by_cases hd0 : dp.toNat = 0
          · refine Or.inr ⟨by simp only [int_ofNat_eq]; omega, ?_⟩
            apply hmu
            rw [if_pos hd0] at hv
            exact hv
          · exact Or.inl (by simp only [int_ofNat_eq]; omega)
        obtain ⟨fk, hfk⟩ := hcall (Int.ofNat dp.toNat - 1) (G.moveApply pos k) (1 - g) true s' hlex
        obtain ⟨p, hrk⟩ := Option.isSome_iff_exists.mp hfk
        obtain ⟨rk, sk⟩ := p
        refine ⟨fk, stepCand g pos (some k) (-rk) b2 sk, fun f' hf' => ?_⟩
        unfold killerGo
        dsimp only
        rw [if_pos hv]
        rw [boundAux_mono G fk f' hf' true _ _ _ _ _ _ hrk]
      cases hf4 : tpMoveFind st4.tpMove pos with
      | some k =>
        by_cases hv : (if dp.toNat = 0 then QS else -G.MATE_LOWER) ≤ G.value pos k
        · obtain ⟨fk, t, hkg⟩ := hkill k st4 hv
          refine ⟨fk, t, fun f' hf' => ?_⟩
          unfold phaseKiller
          rw [if_neg hdn, hf4]
          exact hkg f' hf'
        · refine ⟨0, (b2, false, st4), fun f' _ => ?_⟩
          unfold phaseKiller killerGo
          rw [if_neg hdn, hf4]
          dsimp only
          rw [if_neg hv]
      | none =>
        by_cases hg2 : 2 < dp.toNat
        · have hcp : true = true ∧ 2 < dp.toNat := ⟨rfl, hg2⟩
          obtain ⟨fp, hfp⟩ := hcall (Int.ofNat dp.toNat - 3) pos g false st4
            (Or.inl (by simp only [int_ofNat_eq]; omega))
          obtain ⟨p, hrp⟩ := Option.isSome_iff_exists.mp hfp
          obtain ⟨rp, sp⟩ := p
          cases hk2 : tpMoveFind sp.tpMove pos with
          | none =>
            refine ⟨fp, (b2, false, sp), fun f' hf' => ?_⟩
            unfold phaseKiller
            rw [if_neg hdn, hf4]
            dsimp only
            rw [if_pos hcp]
            rw [boundAux_mono G fp f' hf' true _ _ _ _ _ _ hrp]
            dsimp only
            rw [hk2]
            rfl
          | some k2 =>
            by_cases hv2 : (if dp.toNat = 0 then QS else -G.MATE_LOWER) ≤ G.value pos k2
            · obtain ⟨fk2, t, hkg⟩ := hkill k2 sp hv2
              refine ⟨max fp fk2, t, fun f' hf' => ?_⟩
              unfold phaseKiller
              rw [if_neg hdn, hf4]
              dsimp only
              rw [if_pos hcp]
              rw [boundAux_mono G fp f' (by omega) true _ _ _ _ _ _ hrp]
              dsimp only
              rw [hk2]
              exact hkg f' (by omega)
            · refine ⟨fp, (b2, false, sp), fun f' hf' => ?_⟩
              unfold phaseKiller killerGo
              rw [if_neg hdn, hf4]
              dsimp only
              rw [if_pos hcp]
              rw [boundAux_mono G fp f' hf' true _ _ _ _ _ _ hrp]
              dsimp only
              rw [hk2]
              dsimp only
              rw [if_neg hv2]
        · have hcn : ¬ (true = true ∧ 2 < dp.toNat) := fun hc => absurd hc.2 hg2
          refine ⟨0, (b2, false, st4), fun f' _ => ?_⟩
          unfold phaseKiller killerGo
          rw [if_neg hdn, hf4]
          dsimp only
          rw [if_neg hcn]
  obtain ⟨fK, tK, hK⟩ := hPK
  obtain ⟨b3, dn3, st5⟩ := tK
  have hML : ∃ (f : Nat) (t : Int × SState), ∀ f', f ≤ f' →
      (if dn3 = true then some (b3, st5)
        else mainLoop G (fun p g2 s2 => boundAux G f' true p g2 (Int.ofNat dp.toNat - 1) true s2)
          g dp.toNat pos (if dp.toNat = 0 then QS else -G.MATE_LOWER)
          (movesSorted G pos) b3 st5) = some t := by
    cases dn3 with
    | true => exact ⟨0, (b3, st5), fun f' _ => by rw [if_pos rfl]⟩
    | false =>
      obtain ⟨fm, hfm⟩ := mainLoop_total G g dp.toNat pos
        (if dp.toNat = 0 then QS else -G.MATE_LOWER)
        (fun f p g2 s2 => boundAux G f true p g2 (Int.ofNat dp.toNat - 1) true s2)
        (fun f f' hff p g2 s2 x hx => boundAux_mono G f f' hff true _ _ _ _ _ _ hx)
        (movesSorted G pos)
        (fun v mv hmem hv g2 s2 => by
          have hveq := mem_movesSorted G pos v mv hmem
          refine hcall (Int.ofNat dp.toNat - 1) (G.moveApply pos mv) g2 true s2 ?_
          by_cases hd0 : dp.toNat = 0
          · refine Or.inr ⟨by simp only [int_ofNat_eq]; omega, ?_⟩
            apply hmu
            rw [if_pos hd0] at hv
            rw [← hveq]
            omega
          · exact Or.inl (by simp only [int_ofNat_eq]; omega))
        b3 st5
      obtain ⟨t, ht⟩ := Option.isSome_iff_exists.mp hfm
      refine ⟨fm, t, fun f' hf' => ?_⟩
      rw [if_neg (by simp)]
      exact mainLoop_mono G _ _
        (fun p g2 s2 x hx => boundAux_mono G fm f' hf' true _ _ _ _ _ _ hx)
        g dp.toNat pos _ _ _ _ _ ht
  obtain ⟨fM, tM, hM⟩ := hML
  obtain ⟨best0, st6⟩ := tM
  have hCD : ∃ (f : Nat) (t : Int × SState), ∀ f', f ≤ f' →
      (if 0 < dp.toNat ∧ best0 = -G.MATE_UPPER then
        match boundAux G f' true (G.rotateNull pos) G.MATE_UPPER 0 true st6 with
        | none => none
        | some (rc, st7) =>
          some ((if rc = G.MATE_UPPER then -G.MATE_LOWER else (0 : Int)), st7)
      else some (best0, st6)) = some t := by
    by_cases hcond : 0 < dp.toNat ∧ best0 = -G.MATE_UPPER
    · have hd1 : 0 < dp.toNat := hcond.1
      obtain ⟨fc, hfc⟩ := hcall 0 (G.rotateNull pos) G.MATE_UPPER true st6
        (Or.inl (by omega))
      obtain ⟨p, hrc⟩ := Option.isSome_iff_exists.mp hfc
      obtain ⟨rc, st7⟩ := p
      refine ⟨fc, ((if rc = G.MATE_UPPER then -G.MATE_LOWER else (0 : Int)), st7),
        fun f' hf' => ?_⟩
      rw [if_pos hcond]
      rw [boundAux_mono G fc f' hf' true _ _ _ _ _ _ hrc]
    · exact ⟨0, (best0, st6), fun f' _ => by rw [if_neg hcond]⟩
  obtain ⟨fC, tC, hC⟩ := hCD
  refine ⟨(fN + fK + fM + fC) + 1, ?_⟩
  unfold boundAux boundBody
  dsimp only
  rw [if_neg hking, if_neg hc1, if_neg hc2, if_neg hc3]
  rw [hN (fN + fK + fM + fC) (by omega)]
  dsimp only
  rw [hSP]
  dsimp only
  rw [hK (fN + fK + fM + fC) (by omega)]
  dsimp only
  rw [hM (fN + fK + fM + fC) (by omega)]
  dsimp only
  rw [hC (fN + fK + fM + fC) (by omega)]
  rfl

theorem C9_witness :
    (∀ p m : Nat, QS ≤ gameT.value p m → (fun _ => 0 : Nat → Nat) (gameT.moveApply p m)
        < (fun _ => 0 : Nat → Nat) p)
      ∧ ∃ fuel, (bound gameT fuel 0 0 3 true initState).isSome = true :=
  ⟨fun p m h => absurd (show (35 : Int) ≤ 0 from h) (by decide),
    C9_termination gameT (fun _ => 0)
      (fun p m h => absurd (show (35 : Int) ≤ 0 from h) (by decide)) 0 0 3 true initState⟩

end Panterfish
